import Mathlib

/-!
Verification of the cloud-custodian schema engine (`c7n/schema.py`,
`c7n/commands.py`) against its natural-language specification.

The Python values handled by the code are JSON-like: dicts, lists, strings,
ints, bools, None.  Python dicts are modelled as ordered association lists,
which captures dict insertion/iteration order for a fixed build.  Mutation is
modelled by explicit value passing; Python exceptions are modelled with
`Except PyExc`.
-/

namespace C7n

/-- JSON-like values (Python dicts as ordered association lists). -/
inductive Json where
  | null
  | bool (b : Bool)
  | num (n : Int)
  | str (s : String)
  | arr (elts : List Json)
  | obj (fields : List (String × Json))
deriving Repr

mutual

def Json.decEq : (a b : Json) → Decidable (a = b)
  | .null, .null => isTrue rfl
  | .bool a, .bool b =>
      if h : a = b then isTrue (by rw [h]) else isFalse (by simp [h])
  | .num a, .num b =>
      if h : a = b then isTrue (by rw [h]) else isFalse (by simp [h])
  | .str a, .str b =>
      if h : a = b then isTrue (by rw [h]) else isFalse (by simp [h])
  | .arr xs, .arr ys =>
      match Json.decEqList xs ys with
      | isTrue h => isTrue (by rw [h])
      | isFalse h => isFalse (by simp [h])
  | .obj fs, .obj gs =>
      match Json.decEqFields fs gs with
      | isTrue h => isTrue (by rw [h])
      | isFalse h => isFalse (by simp [h])
  | .null, .bool _ => isFalse nofun
  | .null, .num _ => isFalse nofun
  | .null, .str _ => isFalse nofun
  | .null, .arr _ => isFalse nofun
  | .null, .obj _ => isFalse nofun
  | .bool _, .null => isFalse nofun
  | .bool _, .num _ => isFalse nofun
  | .bool _, .str _ => isFalse nofun
  | .bool _, .arr _ => isFalse nofun
  | .bool _, .obj _ => isFalse nofun
  | .num _, .null => isFalse nofun
  | .num _, .bool _ => isFalse nofun
  | .num _, .str _ => isFalse nofun
  | .num _, .arr _ => isFalse nofun
  | .num _, .obj _ => isFalse nofun
  | .str _, .null => isFalse nofun
  | .str _, .bool _ => isFalse nofun
  | .str _, .num _ => isFalse nofun
  | .str _, .arr _ => isFalse nofun
  | .str _, .obj _ => isFalse nofun
  | .arr _, .null => isFalse nofun
  | .arr _, .bool _ => isFalse nofun
  | .arr _, .num _ => isFalse nofun
  | .arr _, .str _ => isFalse nofun
  | .arr _, .obj _ => isFalse nofun
  | .obj _, .null => isFalse nofun
  | .obj _, .bool _ => isFalse nofun
  | .obj _, .num _ => isFalse nofun
  | .obj _, .str _ => isFalse nofun
  | .obj _, .arr _ => isFalse nofun

def Json.decEqList : (xs ys : List Json) → Decidable (xs = ys)
  | [], [] => isTrue rfl
  | [], _ :: _ => isFalse nofun
  | _ :: _, [] => isFalse nofun
  | x :: xs, y :: ys =>
      match Json.decEq x y with
      | isTrue h1 =>
          match Json.decEqList xs ys with
          | isTrue h2 => isTrue (by rw [h1, h2])
          | isFalse h2 => isFalse (by intro h; injection h; contradiction)
      | isFalse h1 => isFalse (by intro h; injection h; contradiction)

def Json.decEqFields : (fs gs : List (String × Json)) → Decidable (fs = gs)
  | [], [] => isTrue rfl
  | [], _ :: _ => isFalse nofun
  | _ :: _, [] => isFalse nofun
  | (k1, v1) :: fs, (k2, v2) :: gs =>
      if hk : k1 = k2 then
        match Json.decEq v1 v2 with
        | isTrue hv =>
            match Json.decEqFields fs gs with
            | isTrue h2 => isTrue (by rw [hk, hv, h2])
            | isFalse h2 => isFalse (by intro h; injection h; contradiction)
        | isFalse hv =>
            isFalse (by
              intro h; injection h with h1 h2
              exact hv (congrArg Prod.snd h1))
      else
        isFalse (by
          intro h; injection h with h1 h2
          exact hk (congrArg Prod.fst h1))

end

instance : DecidableEq Json := Json.decEq

/-- Association-list lookup, the model of Python dict key lookup. -/
def lookupField (fields : List (String × Json)) (k : String) : Option Json :=
  match fields with
  | [] => none
  | (k1, v) :: rest => if k1 = k then some v else lookupField rest k

/-- Python truthiness of the modelled values. -/
def truthy : Json → Bool
  | .null => false
  | .bool b => b
  | .num n => n != 0
  | .str s => s ≠ ""
  | .arr xs => xs ≠ []
  | .obj fs => fs ≠ []

/-! ## Registry model

A filter or action implementation is an opaque class object: it has an
identity (Python `set` membership on classes is identity) and a schema
fragment (`cls.schema`).  A resource type owns an action registry and a
filter registry; registries are Python dicts, modelled as ordered
association lists with distinct names. -/

/-- An action/filter implementation: identity plus its schema fragment. -/
structure Impl where
  id : Nat
  schema : Json
deriving Repr, DecidableEq

/-- A resource type descriptor: `action_registry` and `filter_registry`. -/
structure ResourceType where
  action_registry : List (String × Impl)
  filter_registry : List (String × Impl)
deriving Repr, DecidableEq

/-- A snapshot of the module-level registries consumed by `generate`:
the `resources` mapping plus the three global filter schema fragments
(`ValueFilter.schema`, `EventFilter.schema`, `AgeFilter.schema`, imported
by `c7n.schema` from `c7n.filters`). -/
structure Registries where
  resources : List (String × ResourceType)
  valueFilterSchema : Json
  eventFilterSchema : Json
  ageFilterSchema : Json
deriving Repr, DecidableEq

/-- The JSON object `a $ref entry points with: just a single `$ref` key. -/
def refJson (path : String) : Json := .obj [("$ref", .str path)]

/-- Lexicographic order on code points, the order Python string comparison
uses. -/
def lexLe : List Char → List Char → Bool
  | [], _ => true
  | _ :: _, [] => false
  | a :: as, b :: bs =>
      if a.toNat < b.toNat then true
      else if a.toNat = b.toNat then lexLe as bs
      else false

def nameLe (a b : String) : Bool := lexLe a.toList b.toList

/-- Stable insertion of one entry into a name-sorted registry list. -/
def insertByName (p : String × Impl) : List (String × Impl) → List (String × Impl)
  | [] => [p]
  | q :: rest => if nameLe p.1 q.1 then p :: q :: rest else q :: insertByName p rest

/-- Models Python `sorted(registry.items())`: a stable sort of the entries
by name (registry names are distinct, so the tuple comparison never reaches
the second component). -/
def sortByName : List (String × Impl) → List (String × Impl)
  | [] => []
  | p :: rest => insertByName p (sortByName rest)

/-- The action loop of `process_resource` (schema.py lines 236-246): walk
`action_registry.items()` with a `seen_actions` identity set; an
implementation already seen is skipped entirely (`continue`), otherwise its
schema is stored under the current name and a `$ref` to that definition is
appended.  Returns the `r['actions']` entries and the `$ref` list. -/
def processActionEntries (type_name : String) (seen : List Nat) :
    List (String × Impl) → List (String × Json) × List Json
  | [] => ([], [])
  | (action_name, a) :: rest =>
    if a.id ∈ seen then processActionEntries type_name seen rest
    else
      let result := processActionEntries type_name (a.id :: seen) rest
      ((action_name, a.schema) :: result.1,
       refJson ("#/definitions/resources/" ++ type_name ++ "/actions/" ++ action_name)
         :: result.2)

/-- The one-word action shortcut (schema.py lines 249-250):
`{'enum': resource_type.action_registry.keys()}` — every registry name,
aliases included. -/
def actionEnumAlt (rt : ResourceType) : Json :=
  .obj [("enum", .arr (rt.action_registry.map (fun p => Json.str p.1)))]

/-- The full `action_refs` list built by `process_resource`. -/
def actionRefs (type_name : String) (rt : ResourceType) : List Json :=
  (processActionEntries type_name [] rt.action_registry).2 ++ [actionEnumAlt rt]

/-- The `nested_filter_refs` loop (schema.py lines 252-261): over the
name-sorted filter registry, dedup by implementation identity, emit a
`$ref` per kept name. -/
def nestedFilterRefEntries (type_name : String) (seen : List Nat) :
    List (String × Impl) → List Json
  | [] => []
  | (k, v) :: rest =>
    if v.id ∈ seen then nestedFilterRefEntries type_name seen rest
    else
      refJson ("#/definitions/resources/" ++ type_name ++ "/filters/" ++ k)
        :: nestedFilterRefEntries type_name (v.id :: seen) rest

/-- The `nested_filter_refs` list including the trailing valuekv shortcut
(schema.py lines 262-263). -/
def nestedFilterRefs (type_name : String) (rt : ResourceType) : List Json :=
  nestedFilterRefEntries type_name [] (sortByName rt.filter_registry) ++
    [refJson "#/definitions/filters/valuekv"]

/-- The main filter loop of `process_resource` (schema.py lines 265-295),
translated branch for branch.  Over the name-sorted registry, after the
identity dedup, the chain is:

    if filter_name in ('or', 'and'): continue
    elif filter_name == 'value':  ...value and valuekv refs...
    elif filter_name == 'event':  ...event ref...
    elif filter_name == 'or':     ...array of anyOf nested refs...
    elif filter_name == 'and':    ...array of anyOf nested refs...
    else:                         r['filters'][filter_name] = f.schema

The first test makes the two `elif filter_name == 'or'/'and'` branches
unreachable; they are kept here, faithful to the source.  The `continue`
also skips the `filter_refs.append` at the loop end.  Returns the
`r['filters']` entries and the `filter_refs` list. -/
def processFilterEntries (type_name : String) (nestedRefs : List Json) (seen : List Nat) :
    List (String × Impl) → List (String × Json) × List Json
  | [] => ([], [])
  | (filter_name, f) :: rest =>
    if f.id ∈ seen then processFilterEntries type_name nestedRefs seen rest
    else
      let seen1 := f.id :: seen
      if filter_name = "or" ∨ filter_name = "and" then
        processFilterEntries type_name nestedRefs seen1 rest
      else
        let entries : List (String × Json) :=
          if filter_name = "value" then
            [("value", refJson "#/definitions/filters/value"),
             ("valuekv", refJson "#/definitions/filters/valuekv")]
          else if filter_name = "event" then
            [(filter_name, refJson "#/definitions/filters/event")]
          else if filter_name = "or" then
            [(filter_name, Json.obj [("type", .str "array"),
               ("items", .obj [("anyOf", .arr nestedRefs)])])]
          else if filter_name = "and" then
            [(filter_name, Json.obj [("type", .str "array"),
               ("items", .obj [("anyOf", .arr nestedRefs)])])]
          else [(filter_name, f.schema)]
        let result := processFilterEntries type_name nestedRefs seen1 rest
        (entries ++ result.1,
         refJson ("#/definitions/resources/" ++ type_name ++ "/filters/" ++ filter_name)
           :: result.2)

/-- The one-word filter shortcut (schema.py lines 300-301). -/
def filterEnumAlt (rt : ResourceType) : Json :=
  .obj [("enum", .arr (rt.filter_registry.map (fun p => Json.str p.1)))]

/-- The full `filter_refs` list: per-definition refs, the valuekv shortcut
(line 296-297), then the bare-name enum. -/
def filterRefs (type_name : String) (rt : ResourceType) : List Json :=
  (processFilterEntries type_name (nestedFilterRefs type_name rt) []
      (sortByName rt.filter_registry)).2 ++
    [refJson "#/definitions/filters/valuekv", filterEnumAlt rt]

/-- The type-specific overlay of the per-resource policy schema
(schema.py lines 303-318): pins `resource`, narrows `filters`/`actions`,
and, exactly when `type_name == 'ec2'`, injects an unconstrained `query`
property. -/
def overlayProperties (type_name : String) (rt : ResourceType) : List (String × Json) :=
  [("resource", .obj [("enum", .arr [.str type_name])]),
   ("filters", .obj [("type", .str "array"),
      ("items", .obj [("anyOf", .arr (filterRefs type_name rt))])]),
   ("actions", .obj [("type", .str "array"),
      ("items", .obj [("anyOf", .arr (actionRefs type_name rt))])])] ++
  (if type_name = "ec2" then [("query", Json.obj [])] else [])

/-- The per-resource entry of `definitions.resources`. -/
structure RDef where
  actions : List (String × Json)
  filters : List (String × Json)
  policy : Json
deriving Repr, DecidableEq

/-- `process_resource(type_name, resource_type, resource_defs)` (schema.py
lines 233-321).  Mutation of `resource_defs` is modelled by returning the
fresh `r` entry together with the emitted top-level `$ref`. -/
def process_resource (type_name : String) (rt : ResourceType) : RDef × Json :=
  let actionDefs := (processActionEntries type_name [] rt.action_registry).1
  let filterDefs := (processFilterEntries type_name (nestedFilterRefs type_name rt) []
      (sortByName rt.filter_registry)).1
  let resource_policy : Json :=
    .obj [("allOf", .arr [refJson "#/definitions/policy",
           .obj [("properties", .obj (overlayProperties type_name rt))]])]
  ({ actions := actionDefs, filters := filterDefs, policy := resource_policy },
   refJson ("#/definitions/resources/" ++ type_name ++ "/policy"))

/-- JSON form of a `definitions.resources[T]` entry. -/
def rdefJson (r : RDef) : Json :=
  .obj [("actions", .obj r.actions), ("filters", .obj r.filters), ("policy", r.policy)]

/-- The `valuekv` shortcut fragment (schema.py lines 138-141). -/
def valuekvJson : Json :=
  .obj [("type", .str "object"), ("minProperties", .num 1), ("maxProperties", .num 1)]

/-- The generic policy envelope, `definitions.policy` (schema.py
lines 144-179). -/
def policyDefJson : Json :=
  .obj [("type", .str "object"),
        ("required", .arr [.str "name", .str "resource"]),
        ("additionalProperties", .bool false),
        ("properties", .obj
          [("name", .obj [("type", .str "string"),
              ("pattern", .str "^[A-z][A-z0-9]*(-[A-z0-9]*[A-z][A-z0-9]*)*$")]),
           ("region", .obj [("type", .str "string")]),
           ("resource", .obj [("type", .str "string")]),
           ("max-resources", .obj [("type", .str "integer")]),
           ("comment", .obj [("type", .str "string")]),
           ("comments", .obj [("type", .str "string")]),
           ("description", .obj [("type", .str "string")]),
           ("tags", .obj [("type", .str "array"),
              ("items", .obj [("type", .str "string")])]),
           ("mode", refJson "#/definitions/policy-mode"),
           ("actions", .obj [("type", .str "array")]),
           ("filters", .obj [("type", .str "array")]),
           ("query", .obj [("type", .str "array"),
              ("items", .obj [("type", .str "object"),
                 ("minProperties", .num 1), ("maxProperties", .num 1)])])])]

/-- The `definitions.policy-mode` fragment (schema.py lines 180-203). -/
def policyModeDefJson : Json :=
  .obj [("type", .str "object"),
        ("required", .arr [.str "type"]),
        ("properties", .obj
          [("type", .obj [("enum", .arr
              [.str "cloudtrail", .str "ec2-instance-state",
               .str "asg-instance-state", .str "config-rule", .str "periodic"])]),
           ("events", .obj [("type", .str "array"),
              ("items", .obj [("oneOf", .arr
                 [.obj [("type", .str "string")],
                  .obj [("type", .str "object"),
                        ("required", .arr [.str "event", .str "source", .str "ids"]),
                        ("properties", .obj
                          [("source", .obj [("type", .str "string")]),
                           ("ids", .obj [("type", .str "string")]),
                           ("event", .obj [("type", .str "string")])])]])])])])]

/-- The resource-type filter of `generate` (schema.py lines 208-209): the
empty tuple default is falsy, so an empty `resource_types` means no
filtering. -/
def selectedResources (resource_types : List String)
    (rs : List (String × ResourceType)) : List (String × ResourceType) :=
  if resource_types = [] then rs
  else rs.filter (fun p => p.1 ∈ resource_types)

/-- `generate(resource_types)` (schema.py lines 129-230): the composite
schema document as a pure function of the registry snapshot. -/
def generate (resource_types : List String) (R : Registries) : Json :=
  let sel := selectedResources resource_types R.resources
  let processed := sel.map (fun p => (p.1, process_resource p.1 p.2))
  let resource_defs : Json := .obj (processed.map (fun q => (q.1, rdefJson q.2.1)))
  let resource_refs : List Json := processed.map (fun q => q.2.2)
  let definitions : Json :=
    .obj [("resources", resource_defs),
          ("filters", .obj
             [("value", R.valueFilterSchema), ("event", R.eventFilterSchema),
              ("age", R.ageFilterSchema), ("valuekv", valuekvJson)]),
          ("policy", policyDefJson),
          ("policy-mode", policyModeDefJson)]
  .obj [("$schema", .str "http://json-schema.org/schema#"),
        ("id", .str "http://schema.cloudcustodian.io/v0/custodian.json"),
        ("definitions", definitions),
        ("type", .str "object"),
        ("required", .arr [.str "policies"]),
        ("additionalProperties", .bool false),
        ("properties", .obj
          [("vars", .obj [("type", .str "object")]),
           ("policies", .obj
             [("type", .str "array"),
              ("additionalItems", .bool false),
              ("items", .obj [("anyOf", .arr resource_refs)])])])]

mutual

/-- Byte-level serialization of the document, the model of `json.dumps`
(field order is the association-list order). -/
def serializeJson : Json → String
  | .null => "null"
  | .bool true => "true"
  | .bool false => "false"
  | .num n => toString n
  | .str s => "\"" ++ s ++ "\""
  | .arr xs => "[" ++ serializeList xs ++ "]"
  | .obj fs => "\x7b" ++ serializeFields fs ++ "\x7d"

def serializeList : List Json → String
  | [] => ""
  | [x] => serializeJson x
  | x :: y :: xs => serializeJson x ++ ", " ++ serializeList (y :: xs)

def serializeFields : List (String × Json) → String
  | [] => ""
  | [(k, v)] => "\"" ++ k ++ "\": " ++ serializeJson v
  | (k, v) :: q :: fs =>
      "\"" ++ k ++ "\": " ++ serializeJson v ++ ", " ++ serializeFields (q :: fs)

end

/-! ## The draft-4 meta-schema self-check

`validate` runs `Validator.check_schema(schema)` on the freshly generated
document, i.e. it validates the document against the JSON-Schema draft-4
meta-schema.  That checker lives in the external `jsonschema` package, not
in this repository, so it is modelled below from the spec's description
("a single JSON document conforming to JSON-Schema draft-4 meta-schema",
with the vocabulary `anyOf`/`oneOf`/`allOf`, `$ref`, `required`, `pattern`,
`enum`, object/array constraints).  The constraints are those of the
published draft-4 meta-schema: a schema is a JSON object; every property
that is a draft-4 keyword must satisfy that keyword's meta-schema (e.g.
`anyOf`/`allOf`/`oneOf` must be arrays of schemas with at least one
element, `enum` a non-empty array with unique elements, `required` a
non-empty unique array of strings); properties that are not draft-4
keywords are unconstrained (the meta-schema has no
`additionalProperties: false`).  `$ref` itself is not a meta-schema
keyword, hence unconstrained. -/

/-- The seven draft-4 simple type names. -/
def isSimpleTypeName (s : String) : Bool :=
  s = "array" || s = "boolean" || s = "integer" || s = "null" ||
    s = "number" || s = "object" || s = "string"

/-- Element uniqueness, for the meta-schema's `uniqueItems` constraints. -/
def nodupJson : List Json → Bool
  | [] => true
  | x :: xs => (!xs.contains x) && nodupJson xs

/-- The meta-schema's `stringArray`: non-empty unique array of strings. -/
def isStringArrayVal : Json → Bool
  | .arr (x :: xs) =>
      (x :: xs).all (fun j => match j with | .str _ => true | _ => false) &&
        nodupJson (x :: xs)
  | _ => false

/-- The meta-schema's constraint on `enum`: non-empty unique array. -/
def isEnumVal : Json → Bool
  | .arr (x :: xs) => nodupJson (x :: xs)
  | _ => false

/-- The meta-schema's `positiveInteger`. -/
def isPosIntVal : Json → Bool
  | .num n => 0 ≤ n
  | _ => false

def isNumVal : Json → Bool
  | .num _ => true
  | _ => false

def isBoolVal : Json → Bool
  | .bool _ => true
  | _ => false

def isStrVal : Json → Bool
  | .str _ => true
  | _ => false

/-- The meta-schema's constraint on `type`: a simple type name or a
non-empty unique array of simple type names. -/
def isTypeVal : Json → Bool
  | .str s => isSimpleTypeName s
  | .arr (x :: xs) =>
      (x :: xs).all (fun j => match j with | .str s => isSimpleTypeName s | _ => false) &&
        nodupJson (x :: xs)
  | _ => false

/-- The kind of constraint the draft-4 meta-schema places on one keyword's
value. -/
inductive KReq where
  | any
  | typeVal
  | stringArray
  | enumVal
  | strVal
  | posNum
  | numVal
  | boolVal
  | posInt
  | boolOrSchema
  | schemaOrArray
  | schemaArray
  | schemaVal
  | schemaObj
  | deps
deriving Repr, DecidableEq

/-- The meta-schema constraint attached to each draft-4 keyword; any key
that is not a draft-4 keyword is unconstrained (`KReq.any`). -/
def keywordReq (k : String) : KReq :=
  if k = "type" then .typeVal
  else if k = "required" then .stringArray
  else if k = "enum" then .enumVal
  else if k = "pattern" then .strVal
  else if k = "format" then .strVal
  else if k = "id" then .strVal
  else if k = "$schema" then .strVal
  else if k = "title" then .strVal
  else if k = "description" then .strVal
  else if k = "multipleOf" then .posNum
  else if k = "maximum" then .numVal
  else if k = "minimum" then .numVal
  else if k = "exclusiveMaximum" then .boolVal
  else if k = "exclusiveMinimum" then .boolVal
  else if k = "uniqueItems" then .boolVal
  else if k = "maxLength" then .posInt
  else if k = "minLength" then .posInt
  else if k = "maxItems" then .posInt
  else if k = "minItems" then .posInt
  else if k = "maxProperties" then .posInt
  else if k = "minProperties" then .posInt
  else if k = "additionalItems" ∨ k = "additionalProperties" then .boolOrSchema
  else if k = "items" then .schemaOrArray
  else if k = "allOf" ∨ k = "anyOf" ∨ k = "oneOf" then .schemaArray
  else if k = "not" then .schemaVal
  else if k = "definitions" ∨ k = "properties" ∨ k = "patternProperties" then .schemaObj
  else if k = "dependencies" then .deps
  else .any

mutual

/-- Modelled from the spec: the draft-4 meta-schema self-check applied by
`Validator.check_schema` (external `jsonschema` package; see the section
comment above).  A schema is a JSON object each of whose keys satisfies its
keyword's constraint (`keywordReq`/`keywordCheck`); non-keyword keys are
unconstrained. -/
def isSchema : Json → Bool
  | .obj fields => schemaFieldsOk fields
  | _ => false

def schemaFieldsOk : List (String × Json) → Bool
  | [] => true
  | (k, v) :: rest => keywordCheck (keywordReq k) v && schemaFieldsOk rest

/-- Enforcement of one keyword constraint: `boolOrSchema` is the
meta-schema's `{boolean} | {$ref #}` (for `additionalItems` and
`additionalProperties`), `schemaOrArray` its `{$ref #} | schemaArray` (for
`items`), `schemaArray` a non-empty array of schemas (for
`allOf`/`anyOf`/`oneOf`), `schemaObj` an object of schemas (for
`definitions`/`properties`/`patternProperties`), and `deps` an object of
schema-or-stringArray values. -/
def keywordCheck : KReq → Json → Bool
  | .any, _ => true
  | .typeVal, v => isTypeVal v
  | .stringArray, v => isStringArrayVal v
  | .enumVal, v => isEnumVal v
  | .strVal, v => isStrVal v
  | .posNum, .num n => 0 < n
  | .posNum, _ => false
  | .numVal, v => isNumVal v
  | .boolVal, v => isBoolVal v
  | .posInt, v => isPosIntVal v
  | .boolOrSchema, .bool _ => true
  | .boolOrSchema, .obj fs => schemaFieldsOk fs
  | .boolOrSchema, _ => false
  | .schemaOrArray, .obj fs => schemaFieldsOk fs
  | .schemaOrArray, .arr (x :: xs) => isSchema x && allSchemas xs
  | .schemaOrArray, _ => false
  | .schemaArray, .arr (x :: xs) => isSchema x && allSchemas xs
  | .schemaArray, _ => false
  | .schemaVal, .obj fs => schemaFieldsOk fs
  | .schemaVal, _ => false
  | .schemaObj, .obj fs => schemaValuesOk fs
  | .schemaObj, _ => false
  | .deps, .obj fs => dependencyValuesOk fs
  | .deps, _ => false

def allSchemas : List Json → Bool
  | [] => true
  | x :: xs => isSchema x && allSchemas xs

def schemaValuesOk : List (String × Json) → Bool
  | [] => true
  | (_, v) :: rest => isSchema v && schemaValuesOk rest

def dependencyValuesOk : List (String × Json) → Bool
  | [] => true
  | (_, v) :: rest => (isSchema v || isStringArrayVal v) && dependencyValuesOk rest

end

/-- Per-keyword meta-schema constraint, as a function of the key name. -/
def keywordOk (k : String) (v : Json) : Bool :=
  keywordCheck (keywordReq k) v

/-- The meta-schema's `schemaArray`: array of schemas, `minItems: 1`. -/
def isSchemaArrayVal (v : Json) : Bool :=
  keywordCheck .schemaArray v

/-- An object all of whose values are schemas. -/
def isSchemaObjVal (v : Json) : Bool :=
  keywordCheck .schemaObj v

/-- The keys `keywordOk` constrains; any other key is unconstrained. -/
def checkedKeywords : List String :=
  ["type", "required", "enum", "pattern", "format", "id", "$schema", "title",
   "description", "multipleOf", "maximum", "minimum", "exclusiveMaximum",
   "exclusiveMinimum", "uniqueItems", "maxLength", "minLength", "maxItems",
   "minItems", "maxProperties", "minProperties", "additionalItems",
   "additionalProperties", "items", "allOf", "anyOf", "oneOf", "not",
   "definitions", "properties", "patternProperties", "dependencies"]

/-! ## The policy-name pattern

`generate` installs the regex

    ^[A-z][A-z0-9]*(-[A-z0-9]*[A-z][A-z0-9]*)*$

at `definitions.policy.properties.name.pattern`.  The character classes are
ASCII ranges: `[A-z]` is codepoints 65..122 (it also contains the six
punctuation characters between `Z` and `a`), `[A-z0-9]` adds 48..57.
The hyphen (codepoint 45) is in neither class and the regex is anchored, so
a string matches exactly when its decomposition at every hyphen yields: a
first segment matching `[A-z][A-z0-9]*` and subsequent segments each
matching `[A-z0-9]*[A-z][A-z0-9]*`, i.e. non-empty over `[A-z0-9]` with at
least one `[A-z]` character.  `namePatternMatch` below implements that
factored form of the regex. -/

/-- Membership of the ASCII range `[A-z]`, codepoints 65..122. -/
def azClass (c : Char) : Bool :=
  65 ≤ c.toNat && c.toNat ≤ 122

/-- Membership of `[A-z0-9]`. -/
def az09Class (c : Char) : Bool :=
  azClass c || (48 ≤ c.toNat && c.toNat ≤ 57)

/-- Split a character list at every hyphen; consecutive or extremal hyphens
produce empty segments. -/
def splitSegs : List Char → List (List Char)
  | [] => [[]]
  | c :: cs =>
    if c = '-' then [] :: splitSegs cs
    else
      match splitSegs cs with
      | [] => [[c]]
      | s :: ss => (c :: s) :: ss

/-- A segment matching `[A-z][A-z0-9]*`. -/
def firstSegMatch : List Char → Bool
  | [] => false
  | c :: cs => azClass c && cs.all az09Class

/-- A segment matching `[A-z0-9]*[A-z][A-z0-9]*`. -/
def laterSegMatch (s : List Char) : Bool :=
  (!s.isEmpty) && s.all az09Class && s.any azClass

/-- Whether a policy name matches the `pattern` regex `generate` installs
(see the section comment for the regex-to-segments correspondence). -/
def namePatternMatch (s : String) : Bool :=
  match splitSegs s.toList with
  | [] => false
  | f :: rest => firstSegMatch f && rest.all laterSegMatch

/-- Modelled from the spec: the claim's description of the naming rule —
the name starts with a letter and consists of alphanumeric segments joined
by single hyphens, with no leading, trailing, or double hyphens (those
three prohibitions are exactly the non-emptiness of every hyphen-separated
segment). -/
def specNameDescription (s : String) : Bool :=
  match splitSegs s.toList with
  | [] => false
  | f :: rest =>
    (match f with
     | [] => false
     | c :: cs => c.isAlpha && cs.all Char.isAlphanum) &&
    rest.all (fun seg => (!seg.isEmpty) && seg.all Char.isAlphanum)

/-- The spec description strengthened with the condition the source regex
actually enforces on segments after the first: each must contain at least
one letter. -/
def specNameDescriptionLetterSegs (s : String) : Bool :=
  specNameDescription s &&
    (splitSegs s.toList).tail.all (fun seg => seg.any Char.isAlpha)

/-! ## Validation errors and the error specializer

`jsonschema` validation errors carry the data `specific_error` inspects:
the failed keyword (`validator`), the offending instance, the failing
alternative list (`validator_value`), the per-alternative sub-errors
(`context`) and the schema path.  Python exceptions raised inside
`specific_error` (KeyError, IndexError, TypeError, AttributeError) are
modelled with `Except PyExc`; `validate` catches them all. -/

/-- A component of `absolute_schema_path`: a key or an array index. -/
inductive PathSeg where
  | str (s : String)
  | idx (n : Nat)
deriving Repr, DecidableEq

/-- The Python exceptions `specific_error` can raise. -/
inductive PyExc where
  | keyError
  | indexError
  | typeError
  | attrError
deriving Repr, DecidableEq

/-- A `jsonschema` ValidationError, reduced to the fields the code reads. -/
inductive VError where
  | mk (validator : String) (inst : Json) (validator_value : List Json)
       (context : List VError) (absolute_schema_path : List PathSeg)

def VError.validator : VError → String
  | .mk v _ _ _ _ => v

def VError.inst : VError → Json
  | .mk _ i _ _ _ => i

def VError.validator_value : VError → List Json
  | .mk _ _ vv _ _ => vv

def VError.context : VError → List VError
  | .mk _ _ _ c _ => c

def VError.absolute_schema_path : VError → List PathSeg
  | .mk _ _ _ _ p => p

/-- Python non-negative list indexing: out of range raises IndexError. -/
def pyIndexNat (l : List α) (n : Nat) : Except PyExc α :=
  match l.get? n with
  | some x => .ok x
  | none => .error .indexError

/-- Python list indexing with possibly negative index (negative indices
address from the end). -/
def pyIndexInt (l : List α) (i : Int) : Except PyExc α :=
  if 0 ≤ i then pyIndexNat l i.toNat
  else
    let j : Int := (l.length : Int) + i
    if 0 ≤ j then pyIndexNat l j.toNat else .error .indexError

/-- Like `pyIndexNat` on an error context, keeping the membership proof
(needed for termination of `specific_error`). -/
def pyIndexMemNat : (l : List VError) → Nat → Except PyExc {e : VError // e ∈ l}
  | [], _ => .error .indexError
  | x :: xs, 0 => .ok ⟨x, List.mem_cons_self x xs⟩
  | _ :: xs, n + 1 =>
      match pyIndexMemNat xs n with
      | .ok epk => .ok ⟨epk.1, List.mem_cons_of_mem _ epk.2⟩
      | .error ex => .error ex

/-- Python `s.rsplit('/', 2)`: split on `/` from the right, at most twice. -/
def rsplit2 (s : String) : List String :=
  let parts := s.splitOn "/"
  match parts.reverse with
  | b :: a :: c :: rest => [String.intercalate "/" ((c :: rest).reverse), a, b]
  | _ => parts

/-- `instance.get(k)` where a stored None and a missing key are
indistinguishable (both make the later `is not None` test fail); on a
non-dict the call sites are guarded by `isinstance(..., dict)`. -/
def getNotNone (j : Json) (k : String) : Option Json :=
  match j with
  | .obj fs =>
      match lookupField fs k with
      | some .null => none
      | x => x
  | _ => none

/-- Python `v[k]` with a string key: KeyError on a dict without the key,
TypeError on non-dicts. -/
def pySubscriptStr (v : Json) (k : String) : Except PyExc Json :=
  match v with
  | .obj fs =>
      match lookupField fs k with
      | some x => .ok x
      | none => .error .keyError
  | _ => .error .typeError

/-- Calling a string method (`.rsplit`, `.endswith`) on a non-string raises
AttributeError. -/
def expectStrAttr : Json → Except PyExc String
  | .str s => .ok s
  | _ => .error .attrError

/-- `str.endswith(t)` with a non-string argument raises TypeError. -/
def expectStrArg : Json → Except PyExc String
  | .str s => .ok s
  | _ => .error .typeError

def strContainsSub (hay need : String) : Bool :=
  (List.range (hay.toList.length + 1)).any
    (fun i => ((hay.toList.drop i).take need.toList.length) = need.toList)

/-- Python `k in v` for the containment test `'$ref' in v`: key lookup on
dicts, element equality on lists, substring on strings, TypeError
otherwise. -/
def pyContainsKey (v : Json) (k : String) : Except PyExc Bool :=
  match v with
  | .obj fs => .ok (lookupField fs k).isSome
  | .arr xs => .ok (xs.contains (Json.str k))
  | .str s => .ok (strContainsSub s k)
  | _ => .error .typeError

def strEndsWith (s suffix : String) : Bool :=
  s.toList.reverse.take suffix.toList.length = suffix.toList.reverse

/-- The `resource` discriminator scan (schema.py lines 92-95): enumerate
every alternative, keep the last index whose `v['$ref'].rsplit('/', 2)`
contains `r`; every element is evaluated, so a `$ref`-less alternative
raises even after a match. -/
def scanRefMatchAux (r : Json) (i : Nat) (acc : Option Nat) :
    List Json → Except PyExc (Option Nat)
  | [] => .ok acc
  | v :: rest => do
      let refv ← pySubscriptStr v "$ref"
      let s ← expectStrAttr refv
      let acc1 := if (rsplit2 s).any (fun p => r = Json.str p) then some i else acc
      scanRefMatchAux r (i + 1) acc1 rest

/-- The `type` discriminator scan (schema.py lines 109-111): keep the last
index with a `$ref` ending in `t`. -/
def scanTypeMatchAux (t : Json) (i : Nat) (acc : Option Nat) :
    List Json → Except PyExc (Option Nat)
  | [] => .ok acc
  | v :: rest => do
      let has ← pyContainsKey v "$ref"
      if has then
        let refv ← pySubscriptStr v "$ref"
        let s ← expectStrAttr refv
        let ts ← expectStrArg t
        let acc1 := if strEndsWith s ts then some i else acc
        scanTypeMatchAux t (i + 1) acc1 rest
      else scanTypeMatchAux t (i + 1) acc rest

/-- The context walk of the `resource` branch (schema.py lines 100-104):
first sub-error whose `absolute_schema_path[4]` equals the found index;
kept with a membership proof for the recursive call. -/
def scanCtx4 (found : Nat) : (ctx : List VError) → Except PyExc (Option {e : VError // e ∈ ctx})
  | [] => .ok none
  | e :: rest =>
      match pyIndexNat e.absolute_schema_path 4 with
      | .error ex => .error ex
      | .ok seg =>
          if seg = PathSeg.idx found then .ok (some ⟨e, List.mem_cons_self e rest⟩)
          else
            match scanCtx4 found rest with
            | .ok none => .ok none
            | .ok (some epk) => .ok (some ⟨epk.1, List.mem_cons_of_mem e epk.2⟩)
            | .error ex => .error ex

/-- The context walk of the `type` branch (schema.py lines 123-125): first
sub-error whose `absolute_schema_path[vidx]` equals the found index,
returned directly (no recursion). -/
def scanCtxVidx (vidx : Int) (found : Nat) : List VError → Except PyExc (Option VError)
  | [] => .ok none
  | e :: rest =>
      match pyIndexInt e.absolute_schema_path vidx with
      | .error ex => .error ex
      | .ok seg =>
          if seg = PathSeg.idx found then .ok (some e)
          else scanCtxVidx vidx found rest

/-- `specific_error(error)` (schema.py lines 74-126), translated branch for
branch, with Python exceptions as `Except.error`.  In the `type` branch,
when neither `oneOf` nor `anyOf` occurs in the reversed schema path, Python
reuses the leaked `enumerate` loop variable, i.e. the last index of
`validator_value`; likewise the fallback `error.context[idx]` of the
`resource` branch indexes with that leaked variable, not with the found
index. -/
def specific_error (error : VError) : Except PyExc VError :=
  if error.validator = "anyOf" ∨ error.validator = "oneOf" then
    let t := getNotNone error.inst "type"
    let r := getNotNone error.inst "resource"
    let tBranch : Except PyExc VError :=
      match t with
      | none => .ok error
      | some tv =>
          match scanTypeMatchAux tv 0 none error.validator_value with
          | .error ex => .error ex
          | .ok none => .ok error
          | .ok (some fnd) =>
              match pyIndexNat error.context 0 with
              | .error ex => .error ex
              | .ok e0 =>
                  let spath := e0.absolute_schema_path.reverse
                  let slen := spath.length
                  let idx : Nat :=
                    match spath.findIdx? (fun seg => seg = PathSeg.str "oneOf") with
                    | some i => i
                    | none =>
                        match spath.findIdx? (fun seg => seg = PathSeg.str "anyOf") with
                        | some i => i
                        | none => error.validator_value.length - 1
                  let vidx : Int := (slen : Int) - (idx : Int)
                  match scanCtxVidx vidx fnd error.context with
                  | .error ex => .error ex
                  | .ok (some e) => .ok e
                  | .ok none => .ok error
    match r with
    | none => tBranch
    | some rv =>
        match scanRefMatchAux rv 0 none error.validator_value with
        | .error ex => .error ex
        | .ok none => tBranch
        | .ok (some fnd) =>
            match scanCtx4 fnd error.context with
            | .error ex => .error ex
            | .ok (some epk) => specific_error epk.1
            | .ok none =>
                match pyIndexMemNat error.context (error.validator_value.length - 1) with
                | .error ex => .error ex
                | .ok em => specific_error em.1
  else .ok error
termination_by sizeOf error
decreasing_by
· have h1 := List.sizeOf_lt_of_mem epk.2
  cases error
  simp only [VError.context] at h1
  simp only [VError.mk.sizeOf_spec]
  omega
· have h1 := List.sizeOf_lt_of_mem em.2
  cases error
  simp only [VError.context] at h1
  simp only [VError.mk.sizeOf_spec]
  omega

/-! ## `validate` (schema.py lines 42-71)

The structural pass `Validator(schema).iter_errors(data)` and
`jsonschema.exceptions.best_match` belong to the external `jsonschema`
package, so `validate` is parametric in them.  Its return value is the
heterogeneous Python list the source builds: validation errors, the
duplicate-name `ValueError` (carrying the duplicated names), and — on the
specialized path — the best-guess offending policy name appended after the
error. -/

/-- An element of the list `validate` returns. -/
inductive RItem where
  | verror (e : VError)
  | dupError (names : List Json)
  | nameVal (v : Json)

/-- First occurrence of each value, in order: the model of the iteration
order of `Counter(names)` and of the name-set comprehension in
`commands.validate`. -/
def firstOccsAux (seen : List Json) : List Json → List Json
  | [] => []
  | x :: xs =>
      if x ∈ seen then firstOccsAux seen xs
      else x :: firstOccsAux (x :: seen) xs

def firstOccurrences (l : List Json) : List Json := firstOccsAux [] l

/-- The duplicate scan of `validate` (schema.py lines 50-54): names whose
count in `policies[*].name` exceeds one. -/
def dupNames (names : List Json) : List Json :=
  (firstOccurrences names).filter (fun k => 2 ≤ names.count k)

/-- `data.get(k, default)`: AttributeError on a non-dict receiver. -/
def pyGetDefault (data : Json) (k : String) (dflt : Json) : Except PyExc Json :=
  match data with
  | .obj fs => .ok ((lookupField fs k).getD dflt)
  | _ => .error .attrError

/-- Python iteration (`for p in v`): lists yield elements, dicts their
keys, strings their characters; anything else raises TypeError (in
particular `None`, the `data.get('policies')` result on a document without
a `policies` key). -/
def pyIterItems : Json → Except PyExc (List Json)
  | .arr xs => .ok xs
  | .obj fs => .ok (fs.map (fun kv => Json.str kv.1))
  | .str s => .ok (s.toList.map (fun c => Json.str (String.singleton c)))
  | _ => .error .typeError

/-- The list comprehension `[p['name'] for p in data.get('policies')]`. -/
def extractPolicyNames (data : Json) : Except PyExc (List Json) := do
  let pv ← pyGetDefault data "policies" Json.null
  let ps ← pyIterItems pv
  ps.mapM (fun p => pySubscriptStr p "name")

/-- Line 62 of schema.py:
`isinstance(errors[0].instance, dict) and errors[0].instance.get('name', 'unknown') or 'unknown'`. -/
def bestGuessName (inst : Json) : Json :=
  match inst with
  | .obj fs =>
      let v := (lookupField fs "name").getD (Json.str "unknown")
      if truthy v then v else Json.str "unknown"
  | _ => Json.str "unknown"

/-- `validate(data)` (schema.py lines 42-71), parametric in the structural
checker and in `best_match`.  The `try`/`except` around `specific_error`
maps any raised exception to the fallback
`filter(None, [errors[0], best_match(...)])`. -/
def validate (iterErrors : Json → List VError)
    (bestMatch : List VError → Option VError) (data : Json) :
    Except PyExc (List RItem) :=
  match iterErrors data with
  | [] => do
      let names ← extractPolicyNames data
      let dupes := dupNames names
      if dupes ≠ [] then pure [RItem.dupError dupes] else pure []
  | e0 :: _ =>
      match specific_error e0 with
      | .ok resp => .ok [RItem.verror resp, RItem.nameVal (bestGuessName e0.inst)]
      | .error _ =>
          .ok (RItem.verror e0 ::
            (match bestMatch (iterErrors data) with
             | some b => [RItem.verror b]
             | none => []))

/-! ## `commands.validate` (commands.py lines 52-100)

One run over several config documents (already deserialized): per config,
`schema.validate`, then the cross-document duplicate check against the
accumulated `used_policy_names`, then — only when no errors — the `Policy`
instantiation pass (external, abstracted as a predicate).  The first config
with errors logs them and exits 1. -/

/-- What a `commands.validate` run does: finish, exit 1 after reporting a
config's error list, or exit 1 because a `Policy` constructor raised. -/
inductive RunOutcome where
  | completed
  | invalidConfig (errs : List RItem)
  | policyError

/-- `data.get('policies', ())` followed by iteration. -/
def policiesOf (data : Json) : Except PyExc (List Json) := do
  let pv ← pyGetDefault data "policies" (Json.arr [])
  pyIterItems pv

/-- The name-set comprehension `{p['name'] for p in data.get('policies', ())}`
(as an ordered list of first occurrences). -/
def extractPolicyNamesDefault (data : Json) : Except PyExc (List Json) := do
  let ps ← policiesOf data
  ps.mapM (fun p => pySubscriptStr p "name")

/-- `commands.validate` over the configs list, starting from the
accumulated `used_policy_names` (a set, modelled in insertion order). -/
def commandsValidate (iterErrors : Json → List VError)
    (bestMatch : List VError → Option VError) (policyCheck : Json → Bool)
    (used : List Json) : List Json → Except PyExc RunOutcome
  | [] => .ok .completed
  | cfg :: rest => do
      let errors0 ← validate iterErrors bestMatch cfg
      let names ← extractPolicyNamesDefault cfg
      let confNames := firstOccurrences names
      let dupes := confNames.filter (fun n => used.contains n)
      let errors := if dupes ≠ [] then errors0 ++ [RItem.dupError dupes] else errors0
      let used1 := used ++ confNames.filter (fun n => !used.contains n)
      match errors with
      | [] => do
          let ps ← policiesOf cfg
          if ps.all policyCheck then
            commandsValidate iterErrors bestMatch policyCheck used1 rest
          else .ok .policyError
      | e :: es => .ok (.invalidConfig (e :: es))

/-! ## Lemmas about the action-loop dedup -/

theorem lookupField_processActionEntries_not_mem (tn n : String) :
    ∀ (entries : List (String × Impl)) (seen : List Nat),
      n ∉ entries.map Prod.fst →
      lookupField (processActionEntries tn seen entries).1 n = none := by
  intro entries
  induction entries with
  | nil => intro seen _; rfl
  | cons q rest ih =>
      intro seen h
      obtain ⟨m, j⟩ := q
      simp only [List.map_cons, List.mem_cons, not_or] at h
      by_cases hid : j.id ∈ seen
      · simp only [processActionEntries, if_pos hid]
        exact ih seen h.2
      · simp only [processActionEntries, if_neg hid, lookupField]
        rw [if_neg (fun hmn => h.1 hmn.symm)]
        exact ih _ h.2

theorem processActionEntries_alias_none (tn n : String) (i : Impl) :
    ∀ (pre : List (String × Impl)) (post : List (String × Impl)) (seen : List Nat),
      n ∉ pre.map Prod.fst → n ∉ post.map Prod.fst →
      ((∃ p ∈ pre, p.2.id = i.id) ∨ i.id ∈ seen) →
      lookupField (processActionEntries tn seen (pre ++ (n, i) :: post)).1 n = none := by
  intro pre
  induction pre with
  | nil =>
      intro post seen _ hpost hseen
      have hid : i.id ∈ seen := by
        rcases hseen with ⟨p, hp, _⟩ | h
        · exact absurd hp (List.not_mem_nil p)
        · exact h
      simp only [List.nil_append, processActionEntries, if_pos hid]
      exact lookupField_processActionEntries_not_mem tn n post seen hpost
  | cons q pre ih =>
      intro post seen hpre hpost hseen
      obtain ⟨m, j⟩ := q
      simp only [List.map_cons, List.mem_cons, not_or] at hpre
      by_cases hid : j.id ∈ seen
      · simp only [List.cons_append, processActionEntries, if_pos hid]
        apply ih post seen hpre.2 hpost
        rcases hseen with ⟨p, hp, hpid⟩ | h
        · rcases List.mem_cons.mp hp with rfl | hp1
          · have hj2 : j.id = i.id := hpid
            exact Or.inr (hj2 ▸ hid)
          · exact Or.inl ⟨p, hp1, hpid⟩
        · exact Or.inr h
      · simp only [List.cons_append, processActionEntries, if_neg hid, lookupField]
        rw [if_neg (fun hmn => hpre.1 hmn.symm)]
        apply ih post (j.id :: seen) hpre.2 hpost
        rcases hseen with ⟨p, hp, hpid⟩ | h
        · rcases List.mem_cons.mp hp with rfl | hp1
          · have hj2 : j.id = i.id := hpid
            exact Or.inr (List.mem_cons.mpr (Or.inl hj2.symm))
          · exact Or.inl ⟨p, hp1, hpid⟩
        · exact Or.inr (List.mem_cons_of_mem _ h)

theorem processActionEntries_first_some (tn n : String) (i : Impl) :
    ∀ (pre : List (String × Impl)) (post : List (String × Impl)) (seen : List Nat),
      n ∉ pre.map Prod.fst →
      (∀ p ∈ pre, p.2.id ≠ i.id) → i.id ∉ seen →
      lookupField (processActionEntries tn seen (pre ++ (n, i) :: post)).1 n
        = some i.schema := by
  intro pre
  induction pre with
  | nil =>
      intro post seen _ _ hseen
      simp only [List.nil_append, processActionEntries, if_neg hseen, lookupField]
      simp
  | cons q pre ih =>
      intro post seen hpre hid hseen
      obtain ⟨m, j⟩ := q
      simp only [List.map_cons, List.mem_cons, not_or] at hpre
      have hji : j.id ≠ i.id := hid (m, j) (List.mem_cons_self _ _)
      have hid1 : ∀ p ∈ pre, p.2.id ≠ i.id := fun p hp => hid p (List.mem_cons_of_mem _ hp)
      by_cases hjs : j.id ∈ seen
      · simp only [List.cons_append, processActionEntries, if_pos hjs]
        exact ih post seen hpre.2 hid1 hseen
      · simp only [List.cons_append, processActionEntries, if_neg hjs, lookupField]
        rw [if_neg (fun hmn => hpre.1 hmn.symm)]
        apply ih post (j.id :: seen) hpre.2 hid1
        simp only [List.mem_cons, not_or]
        exact ⟨fun hc => hji hc.symm, hseen⟩

/-! ## Lemmas about the filter-loop dedup

The filter loop differs from the action loop in three ways that matter to
the statements below: it runs over the name-sorted registry, the `value`
branch inserts an extra `valuekv` entry, and `or`/`and` names are skipped
entirely (C2). -/

theorem lookupField_processFilterEntries_not_mem (tn : String) (nested : List Json)
    (n : String) (hkv : n ≠ "valuekv") :
    ∀ (entries : List (String × Impl)) (seen : List Nat),
      n ∉ entries.map Prod.fst →
      lookupField (processFilterEntries tn nested seen entries).1 n = none := by
  intro entries
  induction entries with
  | nil => intro seen _; rfl
  | cons q rest ih =>
      intro seen h
      obtain ⟨m, j⟩ := q
      simp only [List.map_cons, List.mem_cons, not_or] at h
      obtain ⟨hnm, hrest⟩ := h
      by_cases hid : j.id ∈ seen
      · simp only [processFilterEntries, if_pos hid]
        exact ih seen hrest
      · by_cases hoa : m = "or" ∨ m = "and"
        · simp only [processFilterEntries, if_neg hid, if_pos hoa]
          exact ih _ hrest
        · by_cases hval : m = "value"
          · subst hval
            simp only [processFilterEntries, if_neg hid, if_neg hoa, if_pos rfl,
              List.cons_append, List.nil_append, lookupField]
            rw [if_neg (fun hc => hnm hc.symm), if_neg (fun hc => hkv hc.symm)]
            exact ih _ hrest
          · by_cases hev : m = "event"
            · subst hev
              simp only [processFilterEntries, if_neg hid, if_neg hoa, if_neg hval,
                if_pos rfl, List.cons_append, List.nil_append, lookupField]
              rw [if_neg (fun hc => hnm hc.symm)]
              exact ih _ hrest
            · have hor : ¬ m = "or" := fun hc => hoa (Or.inl hc)
              have hand : ¬ m = "and" := fun hc => hoa (Or.inr hc)
              simp only [processFilterEntries, if_neg hid, if_neg hoa, if_neg hval,
                if_neg hev, if_neg hor, if_neg hand, List.cons_append, List.nil_append,
                lookupField]
              rw [if_neg (fun hc => hnm hc.symm)]
              exact ih _ hrest

theorem processFilterEntries_alias_none (tn : String) (nested : List Json)
    (n : String) (i : Impl) (hkv : n ≠ "valuekv") :
    ∀ (pre post : List (String × Impl)) (seen : List Nat),
      n ∉ pre.map Prod.fst → n ∉ post.map Prod.fst →
      ((∃ p ∈ pre, p.2.id = i.id) ∨ i.id ∈ seen ∨ n = "or" ∨ n = "and") →
      lookupField (processFilterEntries tn nested seen (pre ++ (n, i) :: post)).1 n
        = none := by
  intro pre
  induction pre with
  | nil =>
      intro post seen _ hpost hcase
      by_cases hid : i.id ∈ seen
      · simp only [List.nil_append, processFilterEntries, if_pos hid]
        exact lookupField_processFilterEntries_not_mem tn nested n hkv post seen hpost
      · have hoa : n = "or" ∨ n = "and" := by
          rcases hcase with ⟨p, hp, _⟩ | h | h | h
          · exact absurd hp (List.not_mem_nil p)
          · exact absurd h hid
          · exact Or.inl h
          · exact Or.inr h
        simp only [List.nil_append, processFilterEntries, if_neg hid, if_pos hoa]
        exact lookupField_processFilterEntries_not_mem tn nested n hkv post _ hpost
  | cons q pre ih =>
      intro post seen hpre hpost hcase
      obtain ⟨m, j⟩ := q
      simp only [List.map_cons, List.mem_cons, not_or] at hpre
      obtain ⟨hnm, hpre2⟩ := hpre
      have hnext : ∀ (s1 : List Nat), j.id ∈ s1 → (∀ x ∈ seen, x ∈ s1) →
          ((∃ p ∈ pre, p.2.id = i.id) ∨ i.id ∈ s1 ∨ n = "or" ∨ n = "and") := by
        intro s1 hj hsub
        rcases hcase with ⟨p, hp, hpid⟩ | h | h | h
        · rcases List.mem_cons.mp hp with rfl | hp1
          · have hj2 : j.id = i.id := hpid
            exact Or.inr (Or.inl (hj2 ▸ hj))
          · exact Or.inl ⟨p, hp1, hpid⟩
        · exact Or.inr (Or.inl (hsub _ h))
        · exact Or.inr (Or.inr (Or.inl h))
        · exact Or.inr (Or.inr (Or.inr h))
      by_cases hid : j.id ∈ seen
      · simp only [List.cons_append, processFilterEntries, if_pos hid]
        exact ih post seen hpre2 hpost (hnext seen hid (fun x hx => hx))
      · have hnext1 := hnext (j.id :: seen) (List.mem_cons_self _ _)
          (fun x hx => List.mem_cons_of_mem _ hx)
        by_cases hoa : m = "or" ∨ m = "and"
        · simp only [List.cons_append, processFilterEntries, if_neg hid, if_pos hoa]
          exact ih post _ hpre2 hpost hnext1
        · by_cases hval : m = "value"
          · subst hval
            simp only [List.cons_append, processFilterEntries, if_neg hid, if_neg hoa,
              if_pos rfl, List.cons_append, List.nil_append, lookupField]
            rw [if_neg (fun hc => hnm hc.symm), if_neg (fun hc => hkv hc.symm)]
            exact ih post _ hpre2 hpost hnext1
          · by_cases hev : m = "event"
            · subst hev
              simp only [List.cons_append, processFilterEntries, if_neg hid, if_neg hoa,
                if_neg hval, if_pos rfl, List.cons_append, List.nil_append, lookupField]
              rw [if_neg (fun hc => hnm hc.symm)]
              exact ih post _ hpre2 hpost hnext1
            · have hor : ¬ m = "or" := fun hc => hoa (Or.inl hc)
              have hand : ¬ m = "and" := fun hc => hoa (Or.inr hc)
              simp only [List.cons_append, processFilterEntries, if_neg hid, if_neg hoa,
                if_neg hval, if_neg hev, if_neg hor, if_neg hand, List.cons_append,
                List.nil_append, lookupField]
              rw [if_neg (fun hc => hnm hc.symm)]
              exact ih post _ hpre2 hpost hnext1

theorem processFilterEntries_first_some (tn : String) (nested : List Json)
    (n : String) (i : Impl) (hkv : n ≠ "valuekv") (hnor : n ≠ "or")
    (hnand : n ≠ "and") (hnval : n ≠ "value") (hnev : n ≠ "event") :
    ∀ (pre post : List (String × Impl)) (seen : List Nat),
      n ∉ pre.map Prod.fst →
      (∀ p ∈ pre, p.2.id ≠ i.id) → i.id ∉ seen →
      lookupField (processFilterEntries tn nested seen (pre ++ (n, i) :: post)).1 n
        = some i.schema := by
  intro pre
  induction pre with
  | nil =>
      intro post seen _ _ hseen
      have hoa : ¬ (n = "or" ∨ n = "and") := fun hc => hc.elim hnor hnand
      simp only [List.nil_append, processFilterEntries, if_neg hseen, if_neg hoa,
        if_neg hnval, if_neg hnev, if_neg hnor, if_neg hnand, List.cons_append,
        List.nil_append, lookupField]
      simp
  | cons q pre ih =>
      intro post seen hpre hid hseen
      obtain ⟨m, j⟩ := q
      simp only [List.map_cons, List.mem_cons, not_or] at hpre
      obtain ⟨hnm, hpre2⟩ := hpre
      have hji : j.id ≠ i.id := hid (m, j) (List.mem_cons_self _ _)
      have hid1 : ∀ p ∈ pre, p.2.id ≠ i.id := fun p hp => hid p (List.mem_cons_of_mem _ hp)
      have hseen1 : i.id ∉ j.id :: seen := by
        simp only [List.mem_cons, not_or]
        exact ⟨fun hc => hji hc.symm, hseen⟩
      by_cases hjs : j.id ∈ seen
      · simp only [List.cons_append, processFilterEntries, if_pos hjs]
        exact ih post seen hpre2 hid1 hseen
      · by_cases hoa : m = "or" ∨ m = "and"
        · simp only [List.cons_append, processFilterEntries, if_neg hjs, if_pos hoa]
          exact ih post _ hpre2 hid1 hseen1
        · by_cases hval : m = "value"
          · subst hval
            simp only [List.cons_append, processFilterEntries, if_neg hjs, if_neg hoa,
              if_pos rfl, List.cons_append, List.nil_append, lookupField]
            rw [if_neg (fun hc => hnm hc.symm), if_neg (fun hc => hkv hc.symm)]
            exact ih post _ hpre2 hid1 hseen1
          · by_cases hev : m = "event"
            · subst hev
              simp only [List.cons_append, processFilterEntries, if_neg hjs, if_neg hoa,
                if_neg hval, if_pos rfl, List.cons_append, List.nil_append, lookupField]
              rw [if_neg (fun hc => hnm hc.symm)]
              exact ih post _ hpre2 hid1 hseen1
            · have hor : ¬ m = "or" := fun hc => hoa (Or.inl hc)
              have hand : ¬ m = "and" := fun hc => hoa (Or.inr hc)
              simp only [List.cons_append, processFilterEntries, if_neg hjs, if_neg hoa,
                if_neg hval, if_neg hev, if_neg hor, if_neg hand, List.cons_append,
                List.nil_append, lookupField]
              rw [if_neg (fun hc => hnm hc.symm)]
              exact ih post _ hpre2 hid1 hseen1

theorem mem_insertByName (p q : String × Impl) (l : List (String × Impl)) :
    q ∈ insertByName p l ↔ q = p ∨ q ∈ l := by
  induction l with
  | nil => simp [insertByName]
  | cons r rest ih =>
      rw [insertByName]
      by_cases h : nameLe p.1 r.1
      · rw [if_pos h]
        simp [List.mem_cons]
      · rw [if_neg h]
        simp only [List.mem_cons, ih]
        tauto

theorem mem_sortByName (q : String × Impl) (l : List (String × Impl)) :
    q ∈ sortByName l ↔ q ∈ l := by
  induction l with
  | nil => simp [sortByName]
  | cons p rest ih =>
      rw [sortByName, mem_insertByName]
      simp [List.mem_cons, ih]

/-! ## Claim theorems -/

/-- C1 (counterexample): with an action registry binding both `mark` and the
alias `tag` to the same implementation, the builder stores the schema under
`mark` only; the alias name `tag` gets no entry at all in
`definitions.resources[T].actions` — and likewise on the filter side, where
`fmark` aliases `fflag`: the alias name gets no entry in
`definitions.resources[T].filters`.  This contradicts the claim that every
alias name has its own `$ref` entry there. -/
theorem claim1_counterexample :
    lookupField (process_resource "s3"
      ⟨[("mark", ⟨0, Json.obj [("type", Json.str "object")]⟩),
        ("tag", ⟨0, Json.obj [("type", Json.str "object")]⟩)], []⟩).1.actions "mark"
      = some (Json.obj [("type", Json.str "object")]) ∧
    lookupField (process_resource "s3"
      ⟨[("mark", ⟨0, Json.obj [("type", Json.str "object")]⟩),
        ("tag", ⟨0, Json.obj [("type", Json.str "object")]⟩)], []⟩).1.actions "tag"
      = none ∧
    lookupField (process_resource "s3"
      ⟨[], [("fflag", ⟨7, Json.obj [("fs", Json.null)]⟩),
            ("fmark", ⟨7, Json.obj [("fs", Json.null)]⟩)]⟩).1.filters "fflag"
      = some (Json.obj [("fs", Json.null)]) ∧
    lookupField (process_resource "s3"
      ⟨[], [("fflag", ⟨7, Json.obj [("fs", Json.null)]⟩),
            ("fmark", ⟨7, Json.obj [("fs", Json.null)]⟩)]⟩).1.filters "fmark"
      = none := by
  refine ⟨?_, ?_, ?_, ?_⟩
  · rfl
  · rfl
  · rfl
  · rfl

/-- C1 (amended): in the action registry, each distinct implementation's
schema is emitted exactly once, under the first name bound to it; in the
filter registry (processed in name-sorted order), each distinct
implementation is considered at most once — its schema is emitted once
under the first name in sorted order, unless that name is `or` or `and`
(skipped entirely, emitted zero times, see C2) or the specially-handled
`value`/`event` (which receive shared `$ref`s instead of the fragment).
In both registries an alias name bound to an already-seen implementation
receives no definition entry in `definitions.resources[T]` at all (no
`$ref`, no copy); alias names survive only in the trailing bare-name
`enum` shortcuts, which list every registry name. -/
theorem claim1 (tn : String) (rt : ResourceType) :
    (∀ (pre post : List (String × Impl)) (n : String) (i : Impl),
      rt.action_registry = pre ++ (n, i) :: post →
      (rt.action_registry.map Prod.fst).Nodup →
      ((∃ p ∈ pre, p.2.id = i.id) →
          lookupField (process_resource tn rt).1.actions n = none) ∧
      ((∀ p ∈ pre, p.2.id ≠ i.id) →
          lookupField (process_resource tn rt).1.actions n = some i.schema) ∧
      Json.str n ∈ rt.action_registry.map (fun p => Json.str p.1)) ∧
    (∀ (pre post : List (String × Impl)) (n : String) (i : Impl),
      sortByName rt.filter_registry = pre ++ (n, i) :: post →
      ((sortByName rt.filter_registry).map Prod.fst).Nodup →
      n ≠ "valuekv" →
      (((∃ p ∈ pre, p.2.id = i.id) ∨ n = "or" ∨ n = "and") →
          lookupField (process_resource tn rt).1.filters n = none) ∧
      ((∀ p ∈ pre, p.2.id ≠ i.id) → n ≠ "or" → n ≠ "and" → n ≠ "value" → n ≠ "event" →
          lookupField (process_resource tn rt).1.filters n = some i.schema) ∧
      Json.str n ∈ rt.filter_registry.map (fun p => Json.str p.1)) := by
  constructor
  · intro pre post n i hsplit hnodup
    have hacts : (process_resource tn rt).1.actions
        = (processActionEntries tn [] rt.action_registry).1 := rfl
    rw [hsplit] at hnodup
    rw [List.map_append, List.map_cons] at hnodup
    rw [List.nodup_append] at hnodup
    obtain ⟨_, hnd2, hdisj⟩ := hnodup
    have hnpre : n ∉ pre.map Prod.fst := fun hc => hdisj hc (List.mem_cons_self _ _)
    have hnpost : n ∉ post.map Prod.fst := (List.nodup_cons.mp hnd2).1
    refine ⟨?_, ?_, ?_⟩
    · intro hex
      rw [hacts, hsplit]
      exact processActionEntries_alias_none tn n i pre post [] hnpre hnpost (Or.inl hex)
    · intro hall
      rw [hacts, hsplit]
      exact processActionEntries_first_some tn n i pre post [] hnpre hall (by simp)
    · rw [hsplit]
      simp
  · intro pre post n i hsplit hnodup hkv
    have hfilts : (process_resource tn rt).1.filters
        = (processFilterEntries tn (nestedFilterRefs tn rt) []
            (sortByName rt.filter_registry)).1 := rfl
    rw [hsplit] at hnodup
    rw [List.map_append, List.map_cons] at hnodup
    rw [List.nodup_append] at hnodup
    obtain ⟨_, hnd2, hdisj⟩ := hnodup
    have hnpre : n ∉ pre.map Prod.fst := fun hc => hdisj hc (List.mem_cons_self _ _)
    have hnpost : n ∉ post.map Prod.fst := (List.nodup_cons.mp hnd2).1
    refine ⟨?_, ?_, ?_⟩
    · intro hcase
      rw [hfilts, hsplit]
      apply processFilterEntries_alias_none tn (nestedFilterRefs tn rt) n i hkv
        pre post [] hnpre hnpost
      rcases hcase with h | h | h
      · exact Or.inl h
      · exact Or.inr (Or.inr (Or.inl h))
      · exact Or.inr (Or.inr (Or.inr h))
    · intro hall hnor hnand hnval hnev
      rw [hfilts, hsplit]
      exact processFilterEntries_first_some tn (nestedFilterRefs tn rt) n i
        hkv hnor hnand hnval hnev pre post [] hnpre hall (by simp)
    · have hmem : (n, i) ∈ sortByName rt.filter_registry := by
        rw [hsplit]
        exact List.mem_append.mpr (Or.inr (List.mem_cons_self _ _))
      have hmem2 : (n, i) ∈ rt.filter_registry := (mem_sortByName _ _).mp hmem
      exact List.mem_map.mpr ⟨(n, i), hmem2, rfl⟩

/-- C1 (witness): the amended claim at a concrete registry pair — on the
action side `tag` aliases `mark`; on the filter side `fmark` aliases
`fflag` (the sorted first name) and `ftagz` is a distinct implementation
whose schema is emitted under its own name. -/
theorem claim1_witness :
    lookupField (process_resource "s3"
      ⟨[("mark", ⟨0, Json.obj []⟩), ("tag", ⟨0, Json.obj []⟩)],
       [("fflag", ⟨7, Json.obj []⟩), ("fmark", ⟨7, Json.obj []⟩),
        ("ftagz", ⟨8, Json.null⟩)]⟩).1.actions "tag" = none ∧
    lookupField (process_resource "s3"
      ⟨[("mark", ⟨0, Json.obj []⟩), ("tag", ⟨0, Json.obj []⟩)],
       [("fflag", ⟨7, Json.obj []⟩), ("fmark", ⟨7, Json.obj []⟩),
        ("ftagz", ⟨8, Json.null⟩)]⟩).1.filters "fmark" = none ∧
    lookupField (process_resource "s3"
      ⟨[("mark", ⟨0, Json.obj []⟩), ("tag", ⟨0, Json.obj []⟩)],
       [("fflag", ⟨7, Json.obj []⟩), ("fmark", ⟨7, Json.obj []⟩),
        ("ftagz", ⟨8, Json.null⟩)]⟩).1.filters "ftagz" = some Json.null ∧
    Json.str "fmark" ∈
      (ResourceType.mk [("mark", ⟨0, Json.obj []⟩), ("tag", ⟨0, Json.obj []⟩)]
        [("fflag", ⟨7, Json.obj []⟩), ("fmark", ⟨7, Json.obj []⟩),
         ("ftagz", ⟨8, Json.null⟩)]).filter_registry.map (fun p => Json.str p.1) := by
  refine ⟨?_, ?_, ?_, ?_⟩
  · exact ((claim1 "s3"
      ⟨[("mark", ⟨0, Json.obj []⟩), ("tag", ⟨0, Json.obj []⟩)],
       [("fflag", ⟨7, Json.obj []⟩), ("fmark", ⟨7, Json.obj []⟩),
        ("ftagz", ⟨8, Json.null⟩)]⟩).1
      [("mark", ⟨0, Json.obj []⟩)] [] "tag" ⟨0, Json.obj []⟩
      rfl (by decide)).1 (by decide)
  · exact ((claim1 "s3"
      ⟨[("mark", ⟨0, Json.obj []⟩), ("tag", ⟨0, Json.obj []⟩)],
       [("fflag", ⟨7, Json.obj []⟩), ("fmark", ⟨7, Json.obj []⟩),
        ("ftagz", ⟨8, Json.null⟩)]⟩).2
      [("fflag", ⟨7, Json.obj []⟩)] [("ftagz", ⟨8, Json.null⟩)] "fmark" ⟨7, Json.obj []⟩
      (by decide) (by decide) (by decide)).1 (by decide)
  · exact ((claim1 "s3"
      ⟨[("mark", ⟨0, Json.obj []⟩), ("tag", ⟨0, Json.obj []⟩)],
       [("fflag", ⟨7, Json.obj []⟩), ("fmark", ⟨7, Json.obj []⟩),
        ("ftagz", ⟨8, Json.null⟩)]⟩).2
      [("fflag", ⟨7, Json.obj []⟩), ("fmark", ⟨7, Json.obj []⟩)] [] "ftagz"
      ⟨8, Json.null⟩ (by decide) (by decide) (by decide)).2.1
      (by decide) (by decide) (by decide) (by decide) (by decide)
  · exact ((claim1 "s3"
      ⟨[("mark", ⟨0, Json.obj []⟩), ("tag", ⟨0, Json.obj []⟩)],
       [("fflag", ⟨7, Json.obj []⟩), ("fmark", ⟨7, Json.obj []⟩),
        ("ftagz", ⟨8, Json.null⟩)]⟩).2
      [("fflag", ⟨7, Json.obj []⟩)] [("ftagz", ⟨8, Json.null⟩)] "fmark" ⟨7, Json.obj []⟩
      (by decide) (by decide) (by decide)).2.2

/-- C2: on a filter registry containing `and` and `or` (plus `tag-count`
and `value`), the builder emits no filter definition at all for `and` or
`or`: the early `continue` for those names makes the `elif` branches that
would emit the array-of-anyOf shape unreachable, and the computed
`nested_filter_refs` list is never used.  The claim (and the spec, and the
dead branches themselves) say each should receive
`{'type': 'array', 'items': {'anyOf': nested_filter_refs}}`. -/
theorem claim2 :
    (process_resource "s3"
      ⟨[("tag", ⟨10, Json.obj [("type", Json.str "object")]⟩)],
       [("and", ⟨1, Json.obj []⟩), ("or", ⟨2, Json.obj []⟩),
        ("tag-count", ⟨3, Json.obj [("x", Json.null)]⟩),
        ("value", ⟨4, Json.obj []⟩)]⟩).1.filters =
      [("tag-count", Json.obj [("x", Json.null)]),
       ("value", refJson "#/definitions/filters/value"),
       ("valuekv", refJson "#/definitions/filters/valuekv")] ∧
    lookupField ((process_resource "s3"
      ⟨[("tag", ⟨10, Json.obj [("type", Json.str "object")]⟩)],
       [("and", ⟨1, Json.obj []⟩), ("or", ⟨2, Json.obj []⟩),
        ("tag-count", ⟨3, Json.obj [("x", Json.null)]⟩),
        ("value", ⟨4, Json.obj []⟩)]⟩).1.filters) "and" = none ∧
    lookupField ((process_resource "s3"
      ⟨[("tag", ⟨10, Json.obj [("type", Json.str "object")]⟩)],
       [("and", ⟨1, Json.obj []⟩), ("or", ⟨2, Json.obj []⟩),
        ("tag-count", ⟨3, Json.obj [("x", Json.null)]⟩),
        ("value", ⟨4, Json.obj []⟩)]⟩).1.filters) "or" = none := by
  refine ⟨by decide, by decide, by decide⟩

/-- C9: the schema builder is deterministic — the document, and hence its
serialization, is a pure function of the registry snapshot (the embedding
of `generate` takes the registries as its only input and touches no other
state). -/
theorem claim9 (resource_types : List String) (R1 R2 : Registries)
    (h : R1 = R2) :
    serializeJson (generate resource_types R1)
      = serializeJson (generate resource_types R2) := by
  rw [h]

/-- C9 (witness): determinism at a concrete snapshot. -/
theorem claim9_witness :
    serializeJson (generate []
      ⟨[("s3", ⟨[("tag", ⟨0, Json.obj []⟩)], [("value", ⟨1, Json.obj []⟩)]⟩)],
       Json.obj [], Json.obj [], Json.obj []⟩)
    = serializeJson (generate []
      ⟨[("s3", ⟨[("tag", ⟨0, Json.obj []⟩)], [("value", ⟨1, Json.obj []⟩)]⟩)],
       Json.obj [], Json.obj [], Json.obj []⟩) :=
  claim9 [] _ _ rfl

/-- C10: exactly the type name `ec2` receives an unconstrained top-level
`query` property in its type-specific overlay; every other type name's
overlay has no `query` entry. -/
theorem claim10 (type_name : String) (rt : ResourceType) :
    (type_name = "ec2" →
      lookupField (overlayProperties type_name rt) "query" = some (Json.obj [])) ∧
    (type_name ≠ "ec2" →
      lookupField (overlayProperties type_name rt) "query" = none) ∧
    (process_resource type_name rt).1.policy =
      Json.obj [("allOf", Json.arr [refJson "#/definitions/policy",
        Json.obj [("properties", Json.obj (overlayProperties type_name rt))]])] := by
  refine ⟨?_, ?_, rfl⟩
  · intro h
    subst h
    rfl
  · intro h
    simp only [overlayProperties, if_neg h, List.append_nil, lookupField]
    rw [if_neg (by decide), if_neg (by decide), if_neg (by decide)]

/-- C10 (witness): the overlay at `ec2` and at `s3`. -/
theorem claim10_witness :
    lookupField (overlayProperties "ec2" ⟨[], []⟩) "query" = some (Json.obj []) ∧
    lookupField (overlayProperties "s3" ⟨[], []⟩) "query" = none :=
  ⟨(claim10 "ec2" ⟨[], []⟩).1 rfl, (claim10 "s3" ⟨[], []⟩).2.1 (by decide)⟩

/-! ## Lemmas about the duplicate-name scan -/

theorem mem_firstOccsAux (x : Json) :
    ∀ (l : List Json) (seen : List Json),
      x ∈ firstOccsAux seen l ↔ (x ∈ l ∧ x ∉ seen) := by
  intro l
  induction l with
  | nil => intro seen; simp [firstOccsAux]
  | cons y ys ih =>
      intro seen
      by_cases hy : y ∈ seen
      · rw [firstOccsAux, if_pos hy, ih]
        simp only [List.mem_cons]
        constructor
        · rintro ⟨hx, hs⟩
          exact ⟨Or.inr hx, hs⟩
        · rintro ⟨hx | hx, hs⟩
          · exact absurd (hx ▸ hy) hs
          · exact ⟨hx, hs⟩
      · rw [firstOccsAux, if_neg hy]
        simp only [List.mem_cons, ih, List.mem_cons, not_or]
        constructor
        · rintro (rfl | ⟨hx, hs1, hs2⟩)
          · exact ⟨Or.inl rfl, hy⟩
          · exact ⟨Or.inr hx, hs2⟩
        · rintro ⟨hx | hx, hs⟩
          · exact Or.inl hx
          · by_cases hxy : x = y
            · exact Or.inl hxy
            · exact Or.inr ⟨hx, hxy, hs⟩

theorem mem_firstOccurrences (x : Json) (l : List Json) :
    x ∈ firstOccurrences l ↔ x ∈ l := by
  rw [firstOccurrences, mem_firstOccsAux]
  simp

theorem mem_dupNames (v : Json) (names : List Json) :
    v ∈ dupNames names ↔ 2 ≤ names.count v := by
  rw [dupNames, List.mem_filter, mem_firstOccurrences]
  constructor
  · rintro ⟨_, h2⟩
    simpa using h2
  · intro h2
    refine ⟨List.count_pos_iff.mp (by omega), by simpa using h2⟩

theorem dupNames_eq_nil_of_nodup (names : List Json) (h : names.Nodup) :
    dupNames names = [] := by
  rw [dupNames]
  apply List.filter_eq_nil_iff.mpr
  intro a _
  have h1 := List.nodup_iff_count_le_one.mp h a
  simp only [decide_eq_true_eq]
  omega

/-- C3: `validate` runs the structural pass first; exactly when it reports
no structural error, the duplicate scan over `policies[*].name` runs — one
`ValueError` listing precisely the names with count at least two, the empty
list when all names are distinct — and when structural errors exist the
result never contains a duplicate-name error. -/
theorem claim3 (iterErrors : Json → List VError)
    (bestMatch : List VError → Option VError) (data : Json) :
    (∀ names, iterErrors data = [] → extractPolicyNames data = .ok names →
       ((dupNames names ≠ [] →
           validate iterErrors bestMatch data = .ok [RItem.dupError (dupNames names)]) ∧
        (names.Nodup → validate iterErrors bestMatch data = .ok []) ∧
        (∀ v, v ∈ dupNames names ↔ 2 ≤ names.count v))) ∧
    (∀ e rest l, iterErrors data = e :: rest →
       validate iterErrors bestMatch data = .ok l →
       ∀ ds, RItem.dupError ds ∉ l) := by
  constructor
  · intro names h0 hn
    refine ⟨?_, ?_, fun v => mem_dupNames v names⟩
    · intro hdup
      simp only [validate, h0, hn, Bind.bind, Except.bind]
      rw [if_pos hdup]
      rfl
    · intro hnd
      simp only [validate, h0, hn, Bind.bind, Except.bind]
      rw [if_neg (by simp [dupNames_eq_nil_of_nodup names hnd])]
      rfl
  · intro e rest l h0 hv ds
    simp only [validate, h0] at hv
    cases hse : specific_error e with
    | ok resp =>
        rw [hse] at hv
        cases hv
        simp
    | error exc =>
        rw [hse] at hv
        cases hbm : bestMatch (e :: rest) with
        | none =>
            rw [hbm] at hv
            cases hv
            simp
        | some b =>
            rw [hbm] at hv
            cases hv
            simp

/-- C3 (witness): a structurally clean two-policy document with a repeated
name yields the single duplicate error listing it; distinct names yield the
empty list. -/
theorem claim3_witness :
    validate (fun _ => []) (fun _ => none)
      (Json.obj [("policies", Json.arr [Json.obj [("name", Json.str "p1")],
        Json.obj [("name", Json.str "p1")]])]) =
      .ok [RItem.dupError [Json.str "p1"]] ∧
    validate (fun _ => []) (fun _ => none)
      (Json.obj [("policies", Json.arr [Json.obj [("name", Json.str "p1")],
        Json.obj [("name", Json.str "p2")]])]) = .ok [] := by
  constructor
  · exact ((claim3 (fun _ => []) (fun _ => none)
      (Json.obj [("policies", Json.arr [Json.obj [("name", Json.str "p1")],
        Json.obj [("name", Json.str "p1")]])])).1
      [Json.str "p1", Json.str "p1"] rfl rfl).1 (by decide)
  · exact ((claim3 (fun _ => []) (fun _ => none)
      (Json.obj [("policies", Json.arr [Json.obj [("name", Json.str "p1")],
        Json.obj [("name", Json.str "p2")]])])).1
      [Json.str "p1", Json.str "p2"] rfl rfl).2.1 (by decide)

/-- C4: with a non-empty raw error list, `validate` always returns a value
list (never propagates an exception): when `specific_error` raises, the
result is the fallback headed by the unspecialized top-level error, and
when no discriminator matches (so `specific_error` returns its argument
unchanged) the result is that same unspecialized error plus the best-guess
name. -/
theorem claim4 (iterErrors : Json → List VError)
    (bestMatch : List VError → Option VError) (data : Json) (e0 : VError)
    (rest : List VError) (h : iterErrors data = e0 :: rest) :
    (∃ l, validate iterErrors bestMatch data = .ok l) ∧
    (∀ exc, specific_error e0 = .error exc →
       validate iterErrors bestMatch data = .ok (RItem.verror e0 ::
         (match bestMatch (e0 :: rest) with
          | some b => [RItem.verror b]
          | none => []))) ∧
    (specific_error e0 = .ok e0 →
       validate iterErrors bestMatch data =
         .ok [RItem.verror e0, RItem.nameVal (bestGuessName e0.inst)]) := by
  refine ⟨?_, ?_, ?_⟩
  · cases hse : specific_error e0 with
    | ok resp =>
        exact ⟨[RItem.verror resp, RItem.nameVal (bestGuessName e0.inst)],
          by simp only [validate, h, hse]⟩
    | error exc =>
        cases hbm : bestMatch (e0 :: rest) with
        | none =>
            exact ⟨[RItem.verror e0], by simp only [validate, h, hse, hbm]⟩
        | some b =>
            exact ⟨[RItem.verror e0, RItem.verror b],
              by simp only [validate, h, hse, hbm]⟩
  · intro exc hse
    simp only [validate, h, hse]
  · intro hse
    simp only [validate, h, hse]

/-- C4 (witness): a discriminator lookup failure — an `anyOf` error whose
instance carries `resource` but whose alternative list has a `$ref`-less
entry, making `specific_error` raise KeyError — still produces an error
list headed by the unspecialized error. -/
theorem claim4_witness :
    validate
      (fun _ => [VError.mk "anyOf" (Json.obj [("resource", Json.str "s3")])
        [Json.obj [("enum", Json.arr [])]] [] []])
      (fun _ => none) Json.null =
    .ok [RItem.verror (VError.mk "anyOf" (Json.obj [("resource", Json.str "s3")])
        [Json.obj [("enum", Json.arr [])]] [] [])] :=
  (claim4 (fun _ => [VError.mk "anyOf" (Json.obj [("resource", Json.str "s3")])
      [Json.obj [("enum", Json.arr [])]] [] []])
    (fun _ => none) Json.null
    (VError.mk "anyOf" (Json.obj [("resource", Json.str "s3")])
      [Json.obj [("enum", Json.arr [])]] [] []) [] rfl).2.1
    PyExc.keyError (by rw [specific_error]; rfl)

/-- C5 (counterexample): on a specialized structural failure (here a
`required` error, not a duplicate-name failure) `validate` appends the
offending policy name as a second element after the best-guess error,
while the duplicate-name case returns a single error with no separate name
element — the opposite of the claim. -/
theorem claim5_counterexample :
    validate
      (fun _ => [VError.mk "required" (Json.obj [("name", Json.str "foo")]) [] [] []])
      (fun _ => none) (Json.obj []) =
    .ok [RItem.verror (VError.mk "required" (Json.obj [("name", Json.str "foo")]) [] [] []),
         RItem.nameVal (Json.str "foo")] ∧
    validate (fun _ => []) (fun _ => none)
      (Json.obj [("policies", Json.arr [Json.obj [("name", Json.str "dup")],
        Json.obj [("name", Json.str "dup")]])]) =
      .ok [RItem.dupError [Json.str "dup"]] := by
  constructor
  · have hse : specific_error
        (VError.mk "required" (Json.obj [("name", Json.str "foo")]) [] [] []) =
        .ok (VError.mk "required" (Json.obj [("name", Json.str "foo")]) [] [] []) := by
      rw [specific_error]
      rfl
    simp only [validate, hse]
    rfl
  · rfl

/-- C5 (amended): `validate` returns a list of result values; in the
specialized structural-failure case the best-guess error is accompanied by
the offending policy's name (or `unknown`) as a trailing element, and a
duplicate-name failure yields exactly one error value carrying the
duplicated names, with no separate name element. -/
theorem claim5 (iterErrors : Json → List VError)
    (bestMatch : List VError → Option VError) (data : Json) :
    (∀ e0 rest resp, iterErrors data = e0 :: rest → specific_error e0 = .ok resp →
       validate iterErrors bestMatch data =
         .ok [RItem.verror resp, RItem.nameVal (bestGuessName e0.inst)]) ∧
    (∀ names, iterErrors data = [] → extractPolicyNames data = .ok names →
       dupNames names ≠ [] →
       validate iterErrors bestMatch data = .ok [RItem.dupError (dupNames names)]) := by
  constructor
  · intro e0 rest resp h0 hse
    simp only [validate, h0, hse]
  · intro names h0 hn hdup
    simp only [validate, h0, hn, Bind.bind, Except.bind]
    rw [if_pos hdup]
    rfl

/-! ## Lemmas about the name-pattern segments -/

theorem azClass_of_isAlpha (c : Char) (h : c.isAlpha = true) : azClass c = true := by
  simp only [Char.isAlpha, Char.isUpper, Char.isLower, Bool.or_eq_true,
    Bool.and_eq_true, decide_eq_true_eq] at h
  have h2 : 65 ≤ c.toNat ∧ c.toNat ≤ 122 := by
    rcases h with ⟨h1, h2⟩ | ⟨h1, h2⟩
    · exact ⟨(h1 : (65 : UInt32).toNat ≤ c.val.toNat),
        le_trans (h2 : c.val.toNat ≤ (90 : UInt32).toNat) (by norm_num)⟩
    · exact ⟨le_trans (by norm_num) (h1 : (97 : UInt32).toNat ≤ c.val.toNat),
        (h2 : c.val.toNat ≤ (122 : UInt32).toNat)⟩
  simp only [azClass, Bool.and_eq_true, decide_eq_true_eq]
  exact h2

theorem az09Class_of_isAlphanum (c : Char) (h : c.isAlphanum = true) :
    az09Class c = true := by
  simp only [Char.isAlphanum, Bool.or_eq_true] at h
  rcases h with h | h
  · simp [az09Class, azClass_of_isAlpha c h]
  · simp only [Char.isDigit, Bool.and_eq_true, decide_eq_true_eq] at h
    have h2 : 48 ≤ c.toNat ∧ c.toNat ≤ 57 :=
      ⟨(h.1 : (48 : UInt32).toNat ≤ c.val.toNat), (h.2 : c.val.toNat ≤ (57 : UInt32).toNat)⟩
    simp only [az09Class, Bool.or_eq_true, Bool.and_eq_true, decide_eq_true_eq]
    right
    exact h2

theorem isDigit_not_azClass (c : Char) (h : c.isDigit = true) :
    azClass c = false ∧ c ≠ '-' := by
  simp only [Char.isDigit, Bool.and_eq_true, decide_eq_true_eq] at h
  have h2 : 48 ≤ c.toNat ∧ c.toNat ≤ 57 :=
    ⟨(h.1 : (48 : UInt32).toNat ≤ c.val.toNat), (h.2 : c.val.toNat ≤ (57 : UInt32).toNat)⟩
  constructor
  · simp only [azClass, Bool.and_eq_false_iff]
    left
    simp only [decide_eq_false_iff_not]
    omega
  · intro hc
    rw [hc] at h2
    exact absurd h2.1 (by decide)

theorem splitSegs_ne_nil : ∀ (l : List Char), splitSegs l ≠ [] := by
  intro l
  cases l with
  | nil => simp [splitSegs]
  | cons c cs =>
      by_cases hc : c = '-'
      · simp [splitSegs, hc]
      · rw [splitSegs, if_neg hc]
        cases splitSegs cs <;> simp

theorem splitSegs_cons_shape (c : Char) (cs : List Char) (hc : c ≠ '-') :
    ∃ s ss, splitSegs cs = s :: ss ∧ splitSegs (c :: cs) = (c :: s) :: ss := by
  cases hsp : splitSegs cs with
  | nil => exact absurd hsp (splitSegs_ne_nil cs)
  | cons s ss =>
      refine ⟨s, ss, rfl, ?_⟩
      rw [splitSegs, if_neg hc, hsp]

theorem empty_mem_splitSegs_tail :
    ∀ (xs ys : List Char), [] ∈ (splitSegs (xs ++ '-' :: '-' :: ys)).tail := by
  intro xs
  induction xs with
  | nil =>
      intro ys
      simp [splitSegs]
  | cons x xs ih =>
      intro ys
      by_cases hx : x = '-'
      · subst hx
        rw [List.cons_append, splitSegs, if_pos rfl]
        simp only [List.tail_cons]
        cases hsp : splitSegs (xs ++ '-' :: '-' :: ys) with
        | nil => exact absurd hsp (splitSegs_ne_nil _)
        | cons f rest =>
            have h1 := ih ys
            rw [hsp] at h1
            simp only [List.tail_cons] at h1
            exact List.mem_cons_of_mem f h1
      · obtain ⟨s, ss, hsp, hcons⟩ := splitSegs_cons_shape x (xs ++ '-' :: '-' :: ys) hx
        rw [List.cons_append, hcons]
        simp only [List.tail_cons]
        have h1 := ih ys
        rw [hsp] at h1
        simpa using h1

theorem empty_mem_splitSegs_tail_end :
    ∀ (xs : List Char), [] ∈ (splitSegs (xs ++ ['-'])).tail := by
  intro xs
  induction xs with
  | nil => simp [splitSegs]
  | cons x xs ih =>
      by_cases hx : x = '-'
      · subst hx
        rw [List.cons_append, splitSegs, if_pos rfl]
        simp only [List.tail_cons]
        cases hsp : splitSegs (xs ++ ['-']) with
        | nil => exact absurd hsp (splitSegs_ne_nil _)
        | cons f rest =>
            have h1 := ih
            rw [hsp] at h1
            simp only [List.tail_cons] at h1
            exact List.mem_cons_of_mem f h1
      · obtain ⟨s, ss, hsp, hcons⟩ := splitSegs_cons_shape x (xs ++ ['-']) hx
        rw [List.cons_append, hcons]
        simp only [List.tail_cons]
        have h1 := ih
        rw [hsp] at h1
        simpa using h1

/-- A name whose first character lies outside the `[A-z]` class (digits,
a leading hyphen, anything below `A` or above `z`) fails the pattern. -/
theorem namePatternMatch_false_of_head_not_az (s : String) (c : Char)
    (cs : List Char) (hs : s.toList = c :: cs) (hc : azClass c = false) :
    namePatternMatch s = false := by
  by_cases hd : c = '-'
  · subst hd
    have hgoal : namePatternMatch s =
        (firstSegMatch [] && (splitSegs cs).all laterSegMatch) := by
      rw [namePatternMatch, hs, splitSegs, if_pos rfl]
    rw [hgoal]
    rfl
  · obtain ⟨sg, ss, _, hcons⟩ := splitSegs_cons_shape c cs hd
    have hgoal : namePatternMatch s =
        (firstSegMatch (c :: sg) && ss.all laterSegMatch) := by
      rw [namePatternMatch, hs, hcons]
    rw [hgoal]
    simp [firstSegMatch, hc]

/-- C6 (counterexample): the claim fails in both directions.  `a-1`
satisfies the claim's description of the naming rule (starts with a
letter, alphanumeric segments joined by a single hyphen) yet fails the
installed pattern, whose second segment class `[A-z0-9]*[A-z][A-z0-9]*`
demands a letter in every segment after the first; `a_b` violates the
description (an underscore is not alphanumeric) yet passes the pattern,
whose class `[A-z]` also contains the six ASCII punctuation characters
between `Z` and `a`. -/
theorem claim6_counterexample :
    (specNameDescription "a-1" = true ∧ namePatternMatch "a-1" = false) ∧
    (specNameDescription "a_b" = false ∧ namePatternMatch "a_b" = true) := by
  refine ⟨⟨?_, ?_⟩, ?_, ?_⟩
  · rfl
  · rfl
  · rfl
  · rfl

/-- C6 (amended): the failure direction holds for names starting with a
digit — more generally with any character outside the ASCII class `[A-z]`,
a leading hyphen included — for names containing a double hyphen, and for
names ending in a hyphen; the pass direction holds for every name
satisfying the claim's description strengthened with the requirement that
each hyphen-separated segment after the first contains at least one
letter. -/
theorem claim6 :
    (∀ (s : String) (c : Char) (cs : List Char),
        s.toList = c :: cs → c.isDigit = true → namePatternMatch s = false) ∧
    (∀ (s : String) (c : Char) (cs : List Char),
        s.toList = c :: cs → azClass c = false → namePatternMatch s = false) ∧
    (∀ (s : String) (l : List Char),
        s.toList = l ++ ['-'] → namePatternMatch s = false) ∧
    (∀ (s : String) (l1 l2 : List Char),
        s.toList = l1 ++ '-' :: '-' :: l2 → namePatternMatch s = false) ∧
    (∀ s : String, specNameDescriptionLetterSegs s = true →
        namePatternMatch s = true) := by
  refine ⟨?_, ?_, ?_, ?_, ?_⟩
  · intro s c cs hs hd
    exact namePatternMatch_false_of_head_not_az s c cs hs (isDigit_not_azClass c hd).1
  · intro s c cs hs hc
    exact namePatternMatch_false_of_head_not_az s c cs hs hc
  · intro s l hs
    cases hsp : splitSegs (l ++ ['-']) with
    | nil => exact absurd hsp (splitSegs_ne_nil _)
    | cons f rest =>
        have h1 := empty_mem_splitSegs_tail_end l
        rw [hsp] at h1
        simp only [List.tail_cons] at h1
        have hall : rest.all laterSegMatch = false := by
          cases hall : rest.all laterSegMatch with
          | false => rfl
          | true =>
              have h2 := List.all_eq_true.mp hall [] h1
              simp [laterSegMatch] at h2
        have hgoal : namePatternMatch s = (firstSegMatch f && rest.all laterSegMatch) := by
          rw [namePatternMatch, hs, hsp]
        rw [hgoal, hall, Bool.and_false]
  · intro s l1 l2 hs
    cases hsp : splitSegs (l1 ++ '-' :: '-' :: l2) with
    | nil => exact absurd hsp (splitSegs_ne_nil _)
    | cons f rest =>
        have h1 := empty_mem_splitSegs_tail l1 l2
        rw [hsp] at h1
        simp only [List.tail_cons] at h1
        have hall : rest.all laterSegMatch = false := by
          cases hall : rest.all laterSegMatch with
          | false => rfl
          | true =>
              have h2 := List.all_eq_true.mp hall [] h1
              simp [laterSegMatch] at h2
        have hgoal : namePatternMatch s = (firstSegMatch f && rest.all laterSegMatch) := by
          rw [namePatternMatch, hs, hsp]
        rw [hgoal, hall, Bool.and_false]
  · intro s h
    rw [specNameDescriptionLetterSegs, Bool.and_eq_true] at h
    obtain ⟨hdesc, htail⟩ := h
    cases hsp : splitSegs s.toList with
    | nil => exact absurd hsp (splitSegs_ne_nil _)
    | cons f rest =>
        rw [specNameDescription, hsp] at hdesc
        rw [hsp] at htail
        simp only [List.tail_cons] at htail
        simp only [Bool.and_eq_true] at hdesc
        obtain ⟨hf, hrest⟩ := hdesc
        have hgoal : namePatternMatch s = (firstSegMatch f && rest.all laterSegMatch) := by
          rw [namePatternMatch, hsp]
        rw [hgoal, Bool.and_eq_true]
        constructor
        · cases f with
          | nil => exact absurd hf (by simp)
          | cons c cs =>
              simp only [Bool.and_eq_true] at hf
              obtain ⟨hca, hcs⟩ := hf
              rw [firstSegMatch, Bool.and_eq_true]
              refine ⟨azClass_of_isAlpha c hca, ?_⟩
              rw [List.all_eq_true]
              intro x hx
              exact az09Class_of_isAlphanum x (List.all_eq_true.mp hcs x hx)
        · rw [List.all_eq_true]
          intro seg hseg
          have h1 := List.all_eq_true.mp hrest seg hseg
          have h2 := List.all_eq_true.mp htail seg hseg
          simp only [Bool.and_eq_true] at h1
          obtain ⟨hne, hal⟩ := h1
          rw [laterSegMatch, Bool.and_eq_true, Bool.and_eq_true]
          refine ⟨⟨hne, ?_⟩, ?_⟩
          · rw [List.all_eq_true]
            intro x hx
            exact az09Class_of_isAlphanum x (List.all_eq_true.mp hal x hx)
          · rw [List.any_eq_true]
            obtain ⟨x, hx, hxa⟩ := List.any_eq_true.mp h2
            exact ⟨x, hx, azClass_of_isAlpha x hxa⟩

/-- C6 (witness): the amended claim at `1ab` (digit start), `-ab` (leading
hyphen, outside `[A-z]`), `ab-` (trailing hyphen), `a--b` (double hyphen)
and `ab-c1` (described name with a letter in every segment). -/
theorem claim6_witness :
    namePatternMatch "1ab" = false ∧ namePatternMatch "-ab" = false ∧
    namePatternMatch "ab-" = false ∧ namePatternMatch "a--b" = false ∧
    namePatternMatch "ab-c1" = true := by
  refine ⟨?_, ?_, ?_, ?_, ?_⟩
  · exact claim6.1 "1ab" '1' ['a', 'b'] (by decide) (by decide)
  · exact claim6.2.1 "-ab" '-' ['a', 'b'] (by decide) (by decide)
  · exact claim6.2.2.1 "ab-" ['a', 'b'] (by decide)
  · exact claim6.2.2.2.1 "a--b" ['a'] ['b'] (by decide)
  · exact claim6.2.2.2.2 "ab-c1" (by decide)

/-- C5 (witness): the amended behavior at a concrete `pattern` failure. -/
theorem claim5_witness :
    validate
      (fun _ => [VError.mk "pattern" (Json.obj [("name", Json.str "bad--name")]) [] [] []])
      (fun _ => none) Json.null =
    .ok [RItem.verror (VError.mk "pattern" (Json.obj [("name", Json.str "bad--name")]) [] [] []),
         RItem.nameVal (Json.str "bad--name")] :=
  (claim5 (fun _ => [VError.mk "pattern" (Json.obj [("name", Json.str "bad--name")]) [] [] []])
    (fun _ => none) Json.null).1
    (VError.mk "pattern" (Json.obj [("name", Json.str "bad--name")]) [] [] []) []
    (VError.mk "pattern" (Json.obj [("name", Json.str "bad--name")]) [] [] [])
    rfl (by rw [specific_error]; rfl)

/-! ## Lemmas for the draft-4 meta-schema check -/

theorem keywordCheck_any (v : Json) : keywordCheck .any v = true := by
  cases v <;> rfl

theorem keywordReq_not_mem (k : String) (h : k ∉ checkedKeywords) :
    keywordReq k = .any := by
  simp only [checkedKeywords, List.mem_cons, List.not_mem_nil, or_false, not_or] at h
  obtain ⟨h1, h2, h3, h4, h5, h6, h7, h8, h9, h10, h11, h12, h13, h14, h15, h16,
    h17, h18, h19, h20, h21, h22, h23, h24, h25, h26, h27, h28, h29, h30, h31, h32⟩ := h
  unfold keywordReq
  rw [if_neg h1, if_neg h2, if_neg h3, if_neg h4, if_neg h5, if_neg h6, if_neg h7,
    if_neg h8, if_neg h9, if_neg h10, if_neg h11, if_neg h12, if_neg h13, if_neg h14,
    if_neg h15, if_neg h16, if_neg h17, if_neg h18, if_neg h19, if_neg h20, if_neg h21,
    if_neg (not_or.mpr ⟨h22, h23⟩), if_neg h24,
    if_neg (not_or.mpr ⟨h25, not_or.mpr ⟨h26, h27⟩⟩), if_neg h28,
    if_neg (not_or.mpr ⟨h29, not_or.mpr ⟨h30, h31⟩⟩), if_neg h32]

theorem keywordOk_not_mem (k : String) (v : Json) (h : k ∉ checkedKeywords) :
    keywordOk k v = true := by
  rw [keywordOk, keywordReq_not_mem k h]
  exact keywordCheck_any v

theorem isSchema_obj (fs : List (String × Json)) :
    isSchema (Json.obj fs) = schemaFieldsOk fs := rfl

theorem schemaFieldsOk_nil : schemaFieldsOk [] = true := rfl

theorem schemaFieldsOk_cons (k : String) (v : Json) (rest : List (String × Json)) :
    schemaFieldsOk ((k, v) :: rest) = (keywordOk k v && schemaFieldsOk rest) := rfl

theorem allSchemas_nil : allSchemas [] = true := rfl

theorem allSchemas_cons (x : Json) (xs : List Json) :
    allSchemas (x :: xs) = (isSchema x && allSchemas xs) := rfl

theorem schemaValuesOk_nil : schemaValuesOk [] = true := rfl

theorem schemaValuesOk_cons (k : String) (v : Json) (rest : List (String × Json)) :
    schemaValuesOk ((k, v) :: rest) = (isSchema v && schemaValuesOk rest) := rfl

theorem schemaFieldsOk_of_unknown (fs : List (String × Json))
    (h : ∀ kv ∈ fs, kv.1 ∉ checkedKeywords) : schemaFieldsOk fs = true := by
  induction fs with
  | nil => rfl
  | cons kv rest ih =>
      obtain ⟨k, v⟩ := kv
      rw [schemaFieldsOk_cons, Bool.and_eq_true]
      refine ⟨keywordOk_not_mem k v (h (k, v) (List.mem_cons_self _ _)), ?_⟩
      exact ih (fun kv2 h2 => h kv2 (List.mem_cons_of_mem _ h2))

theorem isSchema_refJson (p : String) : isSchema (refJson p) = true := by
  rw [refJson, isSchema_obj, schemaFieldsOk_cons, schemaFieldsOk_nil, Bool.and_true]
  exact keywordOk_not_mem "$ref" (.str p) (by decide)

theorem allSchemas_of_forall (l : List Json) (h : ∀ x ∈ l, isSchema x = true) :
    allSchemas l = true := by
  induction l with
  | nil => rfl
  | cons x xs ih =>
      rw [allSchemas_cons, Bool.and_eq_true]
      exact ⟨h x (List.mem_cons_self _ _), ih (fun y hy => h y (List.mem_cons_of_mem _ hy))⟩

/-- C7 (amended): for every registry snapshot with at least one resource
type, none of whose type names collides with a draft-4 keyword, the
document `generate()` produces passes the draft-4 meta-schema self-check;
the fragments themselves are never inspected, because they sit under
non-keyword keys which the meta-schema leaves unconstrained. -/
theorem claim7 (R : Registries) (h1 : R.resources ≠ [])
    (h2 : ∀ p ∈ R.resources, p.1 ∉ checkedKeywords) :
    isSchema (generate [] R) = true := by
  obtain ⟨p0, ps, hres⟩ : ∃ p ps, R.resources = p :: ps := by
    cases hres : R.resources with
    | nil => exact absurd hres h1
    | cons p ps => exact ⟨p, ps, rfl⟩
  have hsel : selectedResources [] (p0 :: ps) = p0 :: ps := rfl
  simp only [generate, hres, hsel, List.map_map, List.map_cons]
  rw [isSchema_obj]
  rw [schemaFieldsOk_cons, schemaFieldsOk_cons, schemaFieldsOk_cons, schemaFieldsOk_cons,
    schemaFieldsOk_cons, schemaFieldsOk_cons, schemaFieldsOk_cons, schemaFieldsOk_nil]
  simp only [Bool.and_true, Bool.and_eq_true]
  refine ⟨rfl, rfl, ?_, rfl, by decide, rfl, ?_⟩
  · -- definitions
    have hdef : ∀ fs, keywordOk "definitions" (Json.obj fs) = schemaValuesOk fs := fun _ => rfl
    rw [hdef]
    rw [schemaValuesOk_cons, schemaValuesOk_cons, schemaValuesOk_cons, schemaValuesOk_cons,
      schemaValuesOk_nil]
    simp only [Bool.and_true, Bool.and_eq_true]
    refine ⟨?_, ?_, by decide, by decide⟩
    · -- definitions.resources: all keys are type names, not draft-4 keywords
      rw [isSchema_obj]
      apply schemaFieldsOk_of_unknown
      intro kv hkv
      rw [List.mem_cons] at hkv
      rcases hkv with rfl | hkv
      · exact h2 p0 (by rw [hres]; exact List.mem_cons_self _ _)
      · obtain ⟨p, hp, rfl⟩ := List.mem_map.mp hkv
        exact h2 p (by rw [hres]; exact List.mem_cons_of_mem _ hp)
    · -- definitions.filters: value/event/age/valuekv are not draft-4 keywords
      rw [isSchema_obj]
      apply schemaFieldsOk_of_unknown
      intro kv hkv
      simp only [List.mem_cons, List.not_mem_nil, or_false] at hkv
      rcases hkv with rfl | rfl | rfl | rfl
      · show ("value" : String) ∉ checkedKeywords
        decide
      · show ("event" : String) ∉ checkedKeywords
        decide
      · show ("age" : String) ∉ checkedKeywords
        decide
      · show ("valuekv" : String) ∉ checkedKeywords
        decide
  · -- properties
    have hprop : ∀ fs, keywordOk "properties" (Json.obj fs) = schemaValuesOk fs := fun _ => rfl
    rw [hprop]
    rw [schemaValuesOk_cons, schemaValuesOk_cons, schemaValuesOk_nil]
    simp only [Bool.and_true, Bool.and_eq_true]
    refine ⟨by decide, ?_⟩
    · -- the policies schema
      rw [isSchema_obj]
      rw [schemaFieldsOk_cons, schemaFieldsOk_cons, schemaFieldsOk_cons, schemaFieldsOk_nil]
      simp only [Bool.and_true, Bool.and_eq_true]
      refine ⟨rfl, rfl, ?_⟩
      -- items: the anyOf of resource refs
      have hitems : ∀ fs, keywordOk "items" (Json.obj fs) = schemaFieldsOk fs := fun _ => rfl
      rw [hitems]
      rw [schemaFieldsOk_cons, schemaFieldsOk_nil]
      simp only [Bool.and_true]
      have hany : ∀ x xs, keywordOk "anyOf" (Json.arr (x :: xs)) = (isSchema x && allSchemas xs) :=
        fun _ _ => rfl
      rw [hany]
      rw [Bool.and_eq_true]
      constructor
      · have href : (process_resource p0.1 p0.2).2 =
            refJson ("#/definitions/resources/" ++ p0.1 ++ "/policy") := rfl
        rw [href]
        exact isSchema_refJson _
      · apply allSchemas_of_forall
        intro x hx
        obtain ⟨p, hp, rfl⟩ := List.mem_map.mp hx
        exact isSchema_refJson ("#/definitions/resources/" ++ p.1 ++ "/policy")

/-- C7 (counterexample): the empty registry snapshot yields a document that
fails the draft-4 meta-schema self-check — its `policies.items.anyOf` is
the empty list, violating the meta-schema's `schemaArray` (`minItems: 1`);
a snapshot whose resource type is named like the draft-4 keyword `enum`
fails too. -/
theorem claim7_counterexample :
    isSchema (generate [] ⟨[], Json.obj [], Json.obj [], Json.obj []⟩) = false ∧
    isSchema (generate []
      ⟨[("enum", ⟨[("tag", ⟨0, Json.obj []⟩)], [("value", ⟨1, Json.obj []⟩)]⟩)],
       Json.obj [], Json.obj [], Json.obj []⟩) = false := by
  constructor
  · decide
  · decide

/-- C7 (witness): the amended claim at a one-type snapshot. -/
theorem claim7_witness :
    isSchema (generate []
      ⟨[("s3", ⟨[("tag", ⟨0, Json.obj []⟩)], [("value", ⟨1, Json.obj []⟩)]⟩)],
       Json.obj [], Json.obj [], Json.obj []⟩) = true :=
  claim7 ⟨[("s3", ⟨[("tag", ⟨0, Json.obj []⟩)], [("value", ⟨1, Json.obj []⟩)]⟩)],
       Json.obj [], Json.obj [], Json.obj []⟩ (by decide) (by decide)

/-- C8: validating several config documents in one run applies
duplicate-name detection across all of them: two structurally valid,
internally duplicate-free documents that both define a policy named `foo`
make the run stop at the second document with exactly one duplicate-name
error, whose name list contains `foo` (it is the set intersection of the
second document's names with the accumulated `used_policy_names`). -/
theorem claim8 (iterErrors : Json → List VError)
    (bestMatch : List VError → Option VError) (policyCheck : Json → Bool)
    (d1 d2 : Json) (names1 names2 ps1 : List Json)
    (h1e : iterErrors d1 = []) (h2e : iterErrors d2 = [])
    (h1n : extractPolicyNames d1 = .ok names1)
    (h1nd : extractPolicyNamesDefault d1 = .ok names1)
    (h2n : extractPolicyNames d2 = .ok names2)
    (h2nd : extractPolicyNamesDefault d2 = .ok names2)
    (hnd1 : names1.Nodup) (hnd2 : names2.Nodup)
    (hfoo1 : Json.str "foo" ∈ names1) (hfoo2 : Json.str "foo" ∈ names2)
    (hp1 : policiesOf d1 = .ok ps1) (hpc : ps1.all policyCheck = true) :
    commandsValidate iterErrors bestMatch policyCheck [] [d1, d2] =
      .ok (.invalidConfig [RItem.dupError
        ((firstOccurrences names2).filter
          (fun n => (firstOccurrences names1).contains n))]) ∧
    Json.str "foo" ∈ (firstOccurrences names2).filter
      (fun n => (firstOccurrences names1).contains n) := by
  have hv1 : validate iterErrors bestMatch d1 = .ok [] := by
    simp only [validate, h1e, h1n, Bind.bind, Except.bind]
    rw [if_neg (by simp [dupNames_eq_nil_of_nodup names1 hnd1])]
    rfl
  have hv2 : validate iterErrors bestMatch d2 = .ok [] := by
    simp only [validate, h2e, h2n, Bind.bind, Except.bind]
    rw [if_neg (by simp [dupNames_eq_nil_of_nodup names2 hnd2])]
    rfl
  have hfoo : Json.str "foo" ∈ (firstOccurrences names2).filter
      (fun n => (firstOccurrences names1).contains n) := by
    rw [List.mem_filter]
    refine ⟨(mem_firstOccurrences _ _).mpr hfoo2, ?_⟩
    simpa using (mem_firstOccurrences (Json.str "foo") names1).mpr hfoo1
  refine ⟨?_, hfoo⟩
  have hd1 : (firstOccurrences names1).filter
      (fun n => List.contains ([] : List Json) n) = [] := by simp
  have hu1 : (firstOccurrences names1).filter
      (fun n => !(List.contains ([] : List Json) n)) = firstOccurrences names1 := by simp
  simp only [commandsValidate, hv1, h1nd, hp1, Bind.bind, Except.bind, hd1, hu1,
    List.nil_append]
  rw [if_neg (by simp)]
  rw [if_pos hpc]
  simp only [commandsValidate, hv2, h2nd, Bind.bind, Except.bind, List.nil_append]
  rw [if_pos (by
    intro hcon
    rw [hcon] at hfoo
    exact absurd hfoo (List.not_mem_nil _))]

/-- C8 (witness): two one-policy documents both naming their policy `foo`. -/
theorem claim8_witness :
    commandsValidate (fun _ => []) (fun _ => none) (fun _ => true) []
      [Json.obj [("policies", Json.arr [Json.obj [("name", Json.str "foo")]])],
       Json.obj [("policies", Json.arr [Json.obj [("name", Json.str "foo")]])]] =
      .ok (.invalidConfig [RItem.dupError [Json.str "foo"]]) :=
  (claim8 (fun _ => []) (fun _ => none) (fun _ => true)
    (Json.obj [("policies", Json.arr [Json.obj [("name", Json.str "foo")]])])
    (Json.obj [("policies", Json.arr [Json.obj [("name", Json.str "foo")]])])
    [Json.str "foo"] [Json.str "foo"] [Json.obj [("name", Json.str "foo")]]
    rfl rfl rfl rfl rfl rfl (by decide) (by decide) (by decide) (by decide)
    rfl rfl).1

end C7n
